import Mathlib

set_option linter.unusedVariables false

/-!
# Scan subroutines of the provenance scanner (`src/scan.c`)

A shallow embedding of `src/scan.c` and the properties of its match engine and
match compiler.

Conventions of the embedding.

* A C string is the list of its bytes before the terminating NUL (`CStr`), so
  `*s == 0` reads `s = []` and `strlen s` reads `s.length`.
* A digest is the list of its 16 bytes (`Digest`).
* An array of `match_data` is a list (the parameter `matches` of the source is named
  `ms`, `matches` being a keyword); `scan_limit`, a global of the program, is an explicit
  argument.
* Functions of other translation units (the index gateway, the snippet module, the
  CSV parser, the blacklists) are fields of `Env`.
-/

namespace Scan

/-- Bytes of a NUL-terminated C string, terminator excluded. -/
abbrev CStr := List Nat

/-- Sixteen bytes of an MD5 digest. -/
abbrev Digest := List Nat

/-- Length of a digest, `MD5_LEN`. -/
def MD5_LEN : Nat := 16

/-- Length of the primary key of an index record, `LDB_KEY_LN`. -/
def LDB_KEY_LN : Nat := 4

/-- Enumeration `matchtype`. -/
inductive matchtype where
  | none
  | file
  | snippet
  | component
  deriving DecidableEq, Repr

/-- Events of a scan that the properties speak about, in program order: the calls of
`ldb_scan_file`, `ldb_scan_snippets` and `post_scan`, and the integer division of
`load_matches` with its divisor. -/
inductive Event where
  | ldb_scan_file (fid : Digest)
  | ldb_scan_snippets
  | division (divisor : Int)
  | post_scan
  deriving DecidableEq, Repr

/-- Structure `scan_data`; `timer` and the heap of `matchmap` are left out, `events` is
the record of the events of the scan. -/
structure scan_data where
  md5 : Digest
  file_path : CStr
  file_size : CStr
  hashes : List Nat
  lines : List Nat
  hash_count : Nat
  preload : Bool
  total_lines : Int
  matchmap_size : Nat
  match_type : matchtype
  events : List Event
  deriving DecidableEq, Repr

/-- Structure `match_data`. The pointer `scandata` is read in this file only for the
path of the scanned file, which is what the field holds. -/
structure match_data where
  vendor : CStr
  component : CStr
  version : CStr
  latest_version : CStr
  url : CStr
  file : CStr
  component_md5 : Digest
  file_md5 : Digest
  path_ln : Nat
  selected : Bool
  type : matchtype
  lines : CStr
  oss_lines : CStr
  matched : CStr
  scandata : Option CStr
  deriving DecidableEq, Repr

/-- Library function `strcmp`: sign of the first differing byte, a proper prefix being
smaller. -/
def strcmp : CStr → CStr → Int
  | [], [] => 0
  | [], _ :: _ => -1
  | _ :: _, [] => 1
  | a :: as, b :: bs => if a < b then -1 else if b < a then 1 else strcmp as bs

/-- Library function `strstr` as a test: does `needle` occur in `hay`. -/
def strstr : CStr → CStr → Bool
  | [], needle => needle.isEmpty
  | h :: hay, needle => needle.isPrefixOf (h :: hay) || strstr hay needle

/-- The constant `empty` of `zero_bytes`: the MD5 of the empty input. -/
def empty_md5 : Digest :=
  [0xd4, 0x1d, 0x8c, 0xd9, 0x8f, 0x00, 0xb2, 0x04, 0xe9, 0x80, 0x09, 0x98, 0xec, 0xf8, 0x42, 0x7e]

/-- Function `zero_bytes`: the loop `for (i = 0; i < 15; i++) if (md5[i] != empty[i]) return false`. -/
def zero_bytes (md5 : Digest) : Bool :=
  (List.range 15).all (fun i => md5.getD i 0 == empty_md5.getD i 0)

/-- Record of a `match_data` whose bytes are all zero, as `calloc` leaves it. -/
def match_data.zero : match_data :=
  { vendor := [], component := [], version := [], latest_version := [], url := [], file := [],
    component_md5 := List.replicate MD5_LEN 0, file_md5 := List.replicate MD5_LEN 0,
    path_ln := 0, selected := false, type := matchtype.none,
    lines := [], oss_lines := [], matched := [], scandata := none }

/-- Modelled from the spec: `match_init` of `match.c`, which is not part of `scan.c`; the
record it returns is the invalid one, every required string empty, and here every other
field zero as well. -/
def match_init : match_data := match_data.zero

/-- Loop of `count_matches`: `for (i = 0; i < scan_limit && *matches[i].component; i++) c++`. -/
def count_matches.loop : Nat → List match_data → Nat
  | 0, _ => 0
  | _, [] => 0
  | k + 1, m :: ms => if m.component ≠ [] then count_matches.loop k ms + 1 else 0

/-- Function `count_matches`; `none` is the NULL pointer. -/
def count_matches (scan_limit : Nat) : Option (List match_data) → Nat
  | none => 0
  | some ms => count_matches.loop scan_limit ms

/-- Body of the first loop of `add_match` for a slot with the same vendor and component:
the two `strcpy` that widen the version range. -/
def add_match.widen (m x : match_data) : match_data :=
  let x1 := if strcmp m.version x.version < 0 then { x with version := m.version } else x
  if strcmp m.version x1.latest_version > 0 then { x1 with latest_version := m.version } else x1

/-- First loop of `add_match`, over the slots `i < n`: returns `placed` and the array. -/
def add_match.place (m : match_data) : Nat → List match_data → Bool × List match_data
  | 0, ms => (false, ms)
  | _, [] => (false, [])
  | n + 1, x :: xs =>
    let r := add_match.place m n xs
    if strcmp x.vendor m.vendor = 0 ∧ strcmp x.component m.component = 0 then
      (true, add_match.widen m x :: r.2)
    else (r.1, x :: r.2)

/-- Body of the second loop of `add_match`: the copies into slot `n`. -/
def add_match.store (m x : match_data) : match_data :=
  { x with vendor := m.vendor, component := m.component, version := m.version,
           latest_version := m.latest_version, url := m.url, file := m.file,
           component_md5 := m.component_md5, file_md5 := m.file_md5,
           path_ln := m.path_ln, selected := m.selected }

/-- Second loop of `add_match`, over the slots `n < scan_limit`, with its `break`. -/
def add_match.add_new (m : match_data) : Nat → List match_data → List match_data
  | 0, ms => ms
  | _, [] => []
  | k + 1, x :: xs =>
    if x.path_ln > m.path_ln ∨ x.path_ln = 0 then add_match.store m x :: xs
    else x :: add_match.add_new m k xs

/-- Function `add_match`; returns the array `matches` after the call. -/
def add_match (scan_limit : Nat) (m : match_data) (total_matches : Nat)
    (ms : List match_data) (component_match : Bool) : List match_data :=
  if m.vendor = [] ∨ m.component = [] ∨ m.url = [] ∨ m.version = [] ∨ m.file = [] then ms
  else
    let n := count_matches scan_limit (some ms)
    let r := add_match.place m n ms
    if ¬ r.1 then add_match.add_new m scan_limit r.2 else r.2

/-- Loop of `longer_path_in_set`: the largest `path_ln` among the slots `i < total_matches`. -/
def longer_path_in_set.loop : Nat → List match_data → Nat → Nat
  | 0, _, max_ln => max_ln
  | _, [], max_ln => max_ln
  | k + 1, x :: xs, max_ln =>
    longer_path_in_set.loop k xs (if x.path_ln > max_ln then x.path_ln else max_ln)

/-- Function `longer_path_in_set`. -/
def longer_path_in_set (scan_limit : Nat) (ms : List match_data) (total_matches : Nat)
    (rec_ln : Nat) : Bool :=
  if scan_limit > total_matches then false
  else decide (rec_ln > longer_path_in_set.loop total_matches ms 0)

/-- The two index tables `oss_component` and `oss_file`. -/
inductive Table where
  | oss_component
  | oss_file
  deriving DecidableEq, Repr

/-- Globals of the program and the functions of other translation units that `scan.c`
calls, as they answer during one scan. A record of a table is its subkey and its raw data;
`snippet_hits` tells whether the snippet pass collects hits. -/
structure Env where
  scan_limit : Nat
  sbom : Option CStr
  blacklisted_assets : Option CStr
  match_extensions : Bool
  MAX_PATH : Nat
  MAX_FILE_SIZE : Nat
  sizeof_vendor : Nat
  sizeof_component : Nat
  sizeof_version : Nat
  sizeof_url : Nat
  ldb_key_exists : Table → List Nat → Bool
  recordset : Table → Digest → List (List Nat × List Nat)
  extract_csv : CStr → Nat → Nat → CStr
  flip_slashes : CStr → CStr
  extension : CStr → Option CStr
  blacklisted_extension : CStr → Bool
  unwanted_path : CStr → Bool
  get_component_record : List Nat → CStr
  get_file_size : CStr → Nat
  file_md5 : CStr → Digest
  read_file : CStr → List Nat
  skip_snippets : List Nat → Nat → Bool
  winnowing : List Nat → Nat → List Nat × List Nat × Nat
  snippet_hits : scan_data → Bool
  biggest_snippet : scan_data → Option Digest
  compile_ranges : Digest → Int × CStr × CStr
  post_scan : List match_data → List match_data

/-- The C string that starts at offset `off` of a buffer: the bytes up to the first NUL. -/
def cstr_at (buf : List Nat) (off : Nat) : CStr :=
  (buf.drop off).takeWhile (fun b => b ≠ 0)

/-- Library function `memcpy(dst + off, src, n)` on a buffer held as a list. -/
def memcpy (dst : List Nat) (off : Nat) (src : List Nat) (n : Nat) : List Nat :=
  dst.take off ++ src.take n ++ dst.drop (off + n)

/-- Value of an `int` after conversion from a wider or unsigned integer (two's complement). -/
def to_int32 (v : Int) : Int :=
  (v + 2 ^ 31) % 2 ^ 32 - 2 ^ 31

/-- Value of a `float` converted from the `int` `q`: 24 significant bits, round to nearest,
ties to even. -/
def int_to_float (q : Int) : Int :=
  let a := q.natAbs
  if a < 2 ^ 24 then q
  else
    let u := 2 ^ (Nat.log2 a - 23)
    let lo := a / u
    let r := a % u
    let m := if 2 * r > u ∨ (2 * r = u ∧ lo % 2 = 1) then lo + 1 else lo
    Int.sign q * ((m * u : Nat) : Int)

/-- Decimal digits of a natural number as bytes. -/
def utoa (n : Nat) : CStr :=
  (Nat.toDigits 10 n).map Char.toNat

/-- Text written by `sprintf(s, "%u%%", v)` for an `int` `v`. -/
def sprintf_percent (v : Int) : CStr :=
  utoa (v % 2 ^ 32).toNat ++ [37]

/-- Bytes of the string `"all"`. -/
def str_all : CStr := [97, 108, 108]

/-- Function `fill_match`. The fields the function does not assign are indeterminate in
the source; they hold the values of the zero record here. -/
def fill_match (env : Env) (file_record : Option (List Nat)) (component_record : CStr) :
    match_data :=
  let m0 : match_data := { match_data.zero with selected := false, path_ln := 0 }
  let m1 : match_data :=
    match file_record with
    | some fr =>
      { m0 with component_md5 := fr.take MD5_LEN, file := cstr_at fr MD5_LEN,
                path_ln := (cstr_at fr MD5_LEN).length }
    | none => { m0 with file := str_all }
  let version := env.extract_csv component_record 3 env.sizeof_version
  let m2 : match_data :=
    { m1 with vendor := env.flip_slashes (env.extract_csv component_record 1 env.sizeof_vendor),
              component := env.flip_slashes (env.extract_csv component_record 2 env.sizeof_component),
              version := env.flip_slashes version,
              url := env.flip_slashes (env.extract_csv component_record 4 env.sizeof_url),
              latest_version := version,
              file := env.flip_slashes m1.file }
  if m2.vendor = [] ∨ m2.component = [] ∨ m2.url = [] ∨ m2.version = [] ∨ m2.file = [] then
    match_init
  else m2

/-- Function `handle_component_record`: returns the value of the handler (`true` stops the
iteration) and the array after the call. -/
def handle_component_record (env : Env) (key subkey : List Nat) (subkey_ln : Nat)
    (raw_data : List Nat) (datalen : Nat) (iteration : Nat) (ms : List match_data) :
    Bool × List match_data :=
  if datalen = 0 ∧ datalen ≥ env.MAX_PATH then (false, ms)
  else
    let data := raw_data.take datalen
    let total_matches := count_matches env.scan_limit (some ms)
    if total_matches ≥ env.scan_limit then (true, ms)
    else
      let m := fill_match env none (cstr_at data 0)
      let md5 := memcpy (memcpy m.component_md5 0 key LDB_KEY_LN) LDB_KEY_LN subkey subkey_ln
      let m := { m with component_md5 := md5, file_md5 := md5.take MD5_LEN }
      (false, add_match env.scan_limit m total_matches ms true)

/-- Function `skip_file_path`; `my_path` is `matches->scandata->file_path`. -/
def skip_file_path (env : Env) (path : CStr) (ms : List match_data) : Bool :=
  if env.unwanted_path path then true
  else if (env.extension path).isSome ∧ env.blacklisted_extension path then true
  else if env.match_extensions then
    match env.extension path, (ms.head?.bind (fun m => m.scandata)).bind env.extension with
    | some oss_ext, some my_ext => decide (strcmp oss_ext my_ext ≠ 0)
    | _, _ => false
  else false

/-- Function `handle_file_record`: returns the value of the handler and the array after
the call. -/
def handle_file_record (env : Env) (key subkey : List Nat) (subkey_ln : Nat)
    (raw_data : List Nat) (datalen : Nat) (iteration : Nat) (ms : List match_data) :
    Bool × List match_data :=
  if datalen = 0 ∨ datalen ≥ env.MAX_PATH then (false, ms)
  else
    let data := raw_data.take datalen
    let path := cstr_at data MD5_LEN
    if skip_file_path env path ms then (false, ms)
    else
      let total_matches := count_matches env.scan_limit (some ms)
      if longer_path_in_set env.scan_limit ms total_matches datalen then (false, ms)
      else if (env.extension path).isSome ∧ env.blacklisted_extension path then (false, ms)
      else if ¬ env.ldb_key_exists Table.oss_component data then (false, ms)
      else
        let component := env.get_component_record data
        let m :=
          if component ≠ [] then
            let m := fill_match env (some data) component
            { m with file_md5 := memcpy (memcpy m.file_md5 0 key LDB_KEY_LN) LDB_KEY_LN subkey subkey_ln }
          else match_init
        (false, add_match env.scan_limit m total_matches ms false)

/-- Function `prefill_match`. -/
def prefill_match (env : Env) (scan : scan_data) (lines oss_lines : CStr)
    (matched_percent : Int) : List match_data :=
  let matched_percent := if matched_percent > 100 then 100 else matched_percent
  List.replicate env.scan_limit
    { match_data.zero with type := scan.match_type, lines := lines, oss_lines := oss_lines,
                           matched := sprintf_percent matched_percent, selected := false,
                           scandata := some scan.file_path }

/-- Loop of the record iterator over the records of one key. -/
def ldb_fetch_recordset.loop
    (handler : List Nat → List Nat → Nat → List Nat → Nat → Nat → List match_data →
      Bool × List match_data)
    (key : Digest) : List (List Nat × List Nat) → Nat → List match_data → Nat × List match_data
  | [], records, ms => (records, ms)
  | (subkey, raw) :: rest, records, ms =>
    let r := handler key subkey subkey.length raw raw.length records ms
    if r.1 then (records + 1, r.2) else ldb_fetch_recordset.loop handler key rest (records + 1) r.2

/-- Modelled from the spec: `ldb_fetch_recordset` of the index gateway, which is not part of
`scan.c`: it streams all records matching `key`, invoking the handler for each with the
iteration number; the handler may return stop to end the iteration early; the result is the
record count. -/
def ldb_fetch_recordset (env : Env) (table : Table) (key : Digest)
    (handler : List Nat → List Nat → Nat → List Nat → Nat → Nat → List match_data →
      Bool × List match_data)
    (ms : List match_data) : Nat × List match_data :=
  ldb_fetch_recordset.loop handler key (env.recordset table key) 0 ms

/-- Lines 448 to 472 of `load_matches`: prefill the array and hydrate it from the index;
`none` is NULL. -/
def load_matches.fetch (env : Env) (scan : scan_data) (matching_md5 : Digest)
    (line_ranges oss_ranges : CStr) (matched_percent : Int) : Option (List match_data) :=
  let ms := prefill_match env scan line_ranges oss_ranges matched_percent
  let r1 : Nat × List match_data :=
    if scan.match_type ≠ matchtype.file then
      ldb_fetch_recordset env Table.oss_component matching_md5 (handle_component_record env) ms
    else (0, ms)
  let r2 : Nat × List match_data :=
    if r1.1 = 0 then
      ldb_fetch_recordset env Table.oss_file matching_md5 (handle_file_record env) r1.2
    else r1
  if r2.1 ≠ 0 then some r2.2 else none

/-- Function `load_matches`: returns the scan, whose `events` record the division, and the
array, `none` being NULL. -/
def load_matches (env : Env) (scan : scan_data) (matching_md5 : Digest) :
    scan_data × Option (List match_data) :=
  if scan.match_type = matchtype.snippet then
    let c := env.compile_ranges matching_md5
    let hits := c.1
    let scan1 : scan_data :=
      { scan with events := scan.events ++ [Event.division scan.total_lines] }
    let percent := int_to_float (Int.tdiv (to_int32 (hits * 100)) scan.total_lines)
    let matched_percent := if hits ≠ 0 then to_int32 percent else 100
    if hits = 0 then (scan1, none)
    else (scan1, load_matches.fetch env scan1 matching_md5 c.2.1 c.2.2 matched_percent)
  else (scan, load_matches.fetch env scan matching_md5 str_all str_all 100)

/-- The digest `matching_md5` of `compile_matches`; `none` is NULL. -/
def compile_matches.matching_md5 (env : Env) (scan : scan_data) : Option Digest :=
  if scan.match_type = matchtype.snippet then env.biggest_snippet scan else some scan.md5

/-- Function `compile_matches`: returns the scan and the array, `none` being NULL. -/
def compile_matches (env : Env) (scan : scan_data) : scan_data × Option (List match_data) :=
  match compile_matches.matching_md5 env scan with
  | none => ({ scan with match_type := matchtype.none }, none)
  | some md5 =>
    let r : scan_data × Option (List match_data) :=
      if scan.match_type ≠ matchtype.none then load_matches env scan md5 else (scan, none)
    match r.2 with
    | none => ({ r.1 with match_type := matchtype.none }, none)
    | some ms => (r.1, some ms)

/-- Function `ldb_scan_file`. -/
def ldb_scan_file (env : Env) (fid : Digest) : matchtype :=
  if zero_bytes fid then matchtype.none
  else if env.ldb_key_exists Table.oss_component fid then matchtype.component
  else if env.ldb_key_exists Table.oss_file fid then matchtype.file
  else matchtype.none

/-- Function `assets_match`. -/
def assets_match (env : Env) (m : match_data) : Bool :=
  match env.sbom with
  | none => false
  | some sbom => strstr sbom (m.component ++ [44])

/-- Modelled from the spec: `ldb_scan_snippets` of the snippet module, which is not part of
`scan.c`: run the snippet algorithm; on any hits, the match type is `snippet`. -/
def ldb_scan_snippets (env : Env) (scan : scan_data) : matchtype :=
  if env.snippet_hits scan then matchtype.snippet else matchtype.none

/-- Library function `atoi`: leading white space, an optional sign, decimal digits. -/
def atoi (s : CStr) : Int :=
  let s := s.dropWhile (fun b => b = 32 ∨ (9 ≤ b ∧ b ≤ 13))
  let digits (t : CStr) : Int :=
    ((t.takeWhile (fun b => 48 ≤ b ∧ b ≤ 57)).foldl (fun acc b => acc * 10 + (b - 48)) 0 : Nat)
  match s with
  | 45 :: t => - digits t
  | 43 :: t => digits t
  | t => digits t

/-- Function `scan_data_reset`. -/
def scan_data_reset (scan : scan_data) : scan_data :=
  { scan with file_path := [], file_size := [], hash_count := 0, total_lines := 0,
              matchmap_size := 0, match_type := matchtype.none }

/-- The size of the target as `ldb_scan` reads it into its `uint64_t file_size`. -/
def ldb_scan.file_size (env : Env) (scan : scan_data) : Nat :=
  if scan.preload then (atoi scan.file_size % 2 ^ 64).toNat else env.get_file_size scan.file_path

/-- The flag `skip` of `ldb_scan`. -/
def ldb_scan.skip (env : Env) (scan : scan_data) : Bool :=
  ((env.extension scan.file_path).isSome && env.blacklisted_extension scan.file_path)
    || decide (ldb_scan.file_size env scan ≤ 1)

/-- Lines 645 to 661 of `ldb_scan`: load the fingerprints of the target into the scan. -/
def ldb_scan.load_snippets (env : Env) (scan : scan_data) (file_size : Nat) : scan_data :=
  if ¬ scan.preload then
    let src : List Nat :=
      if file_size < env.MAX_FILE_SIZE then env.read_file scan.file_path
      else List.replicate env.MAX_FILE_SIZE 0
    if ¬ env.skip_snippets src file_size then
      let w := env.winnowing src env.MAX_FILE_SIZE
      let scan1 : scan_data := { scan with hashes := w.1, lines := w.2.1, hash_count := w.2.2 }
      if scan1.hash_count ≠ 0 then
        { scan1 with total_lines := to_int32 (scan1.lines.getD (scan1.hash_count - 1) 0) }
      else scan1
    else scan
  else if scan.hash_count ≠ 0 then
    { scan with total_lines := to_int32 (scan.lines.getD (scan.hash_count - 1) 0) }
  else scan

/-- First part of `ldb_scan`, up to the call of `compile_matches`: the match engine. -/
def ldb_scan.engine (env : Env) (scan : scan_data) : scan_data :=
  let scan0 : scan_data := { scan with matchmap_size := 0, match_type := matchtype.none }
  let file_size := ldb_scan.file_size env scan0
  let scan1 : scan_data :=
    if ¬ scan0.preload then { scan0 with md5 := env.file_md5 scan0.file_path } else scan0
  if ¬ ldb_scan.skip env scan1 then
    let scan2 : scan_data :=
      { scan1 with match_type := ldb_scan_file env scan1.md5,
                   events := scan1.events ++ [Event.ldb_scan_file scan1.md5] }
    if scan2.match_type = matchtype.none then
      let scan3 : scan_data := ldb_scan.load_snippets env scan2 file_size
      if scan3.total_lines ≠ 0 then
        { scan3 with match_type := ldb_scan_snippets env scan3,
                     events := scan3.events ++ [Event.ldb_scan_snippets] }
      else scan3
    else scan2
  else scan1

/-- Loop of `ldb_scan` over the compiled matches: is one of the first `total_matches`
an asset of the SBOM. -/
def ldb_scan.asset_matched (env : Env) : Nat → List match_data → Bool
  | 0, _ => false
  | _, [] => false
  | k + 1, m :: ms => assets_match env m || ldb_scan.asset_matched env k ms

/-- What `ldb_scan` hands to `output_matches_json`, and the scan it leaves behind. -/
structure Output where
  matches_out : Option (List match_data)
  scan_out : scan_data
  scan_after : scan_data
  deriving DecidableEq, Repr

/-- Function `ldb_scan`. -/
def ldb_scan (env : Env) (scan : scan_data) : Output :=
  let scan := ldb_scan.engine env scan
  let c := compile_matches env scan
  let scan := c.1
  let total_matches := count_matches env.scan_limit c.2
  let suppressed := ldb_scan.asset_matched env total_matches (c.2.getD [])
  let ms := if suppressed then none else c.2
  let scan := if suppressed then { scan with match_type := matchtype.none } else scan
  let r : scan_data × Option (List match_data) :=
    if scan.match_type ≠ matchtype.none then
      ({ scan with events := scan.events ++ [Event.post_scan] }, ms.map env.post_scan)
    else (scan, ms)
  { matches_out := r.2, scan_out := r.1, scan_after := scan_data_reset r.1 }

/-- Constants and functions of other translation units that `wfp_scan` uses. -/
structure WfpEnv where
  MAX_HASHES_READ : Nat
  LDB_MAX_REC_LN : Nat
  trim : CStr → CStr
  hex_to_bin : CStr → Nat → List Nat
  uint32_reverse : List Nat → List Nat

/-- Value of a `uint32_t` held in four bytes, the first byte the least significant (the
in-memory representation is little-endian). -/
def le32 (bytes : List Nat) : Nat :=
  bytes.foldr (fun b acc => b + 256 * acc) 0

/-- The assignment `a[i] = v` on an array held as a list. -/
def array_set (a : List Nat) (i v : Nat) : List Nat :=
  a.take i ++ List.replicate (i - a.length) 0 ++ [v] ++ a.drop (i + 1)

/-- Lines 572 and 573 of `wfp_scan`: the line with every `=` and `,` replaced by NUL, as the
list of the strings between them. The byte after the terminator of the line, which the loop
over the fingerprints reads last, is taken to be NUL. -/
def wfp_scan.fields : CStr → List CStr
  | [] => [[]]
  | b :: bs =>
    if b = 61 ∨ b = 44 then [] :: wfp_scan.fields bs
    else
      match wfp_scan.fields bs with
      | [] => [[b]]
      | t :: ts => (b :: t) :: ts

/-- The loop `while (*hexhash)` of `wfp_scan` over the strings that follow the line number;
it ends at the first empty string. -/
def wfp_scan.save_hashes (w : WfpEnv) (line_nr : Int) : List CStr → scan_data → scan_data
  | [], scan => scan
  | hexhash :: rest, scan =>
    if hexhash = [] then scan
    else
      wfp_scan.save_hashes w line_nr rest
        { scan with
          hashes := array_set scan.hashes scan.hash_count
            (le32 (w.uint32_reverse (w.hex_to_bin hexhash 8))),
          lines := array_set scan.lines scan.hash_count (line_nr % 2 ^ 32).toNat,
          hash_count := scan.hash_count + 1 }

/-- State of the loop of `wfp_scan`: the scan, the flag `read_data`, and the scans handed
to `ldb_scan` so far, in order. -/
structure wfp_state where
  scan : scan_data
  read_data : Bool
  calls : List scan_data
  deriving DecidableEq, Repr

/-- The call `ldb_scan(scan)` in `wfp_scan`: the scan is recorded and comes back reset. -/
def wfp_scan.call (env : Env) (st : wfp_state) : wfp_state :=
  { st with scan := (ldb_scan env st.scan).scan_after, calls := st.calls ++ [st.scan] }

/-- The test `memcmp(line, "component=", 4) == 0` of `wfp_scan`. -/
def wfp_scan.is_component (line : CStr) : Bool :=
  decide (line.take 4 = [99, 111, 109, 112])

/-- The test `memcmp(line, "file=", 5) == 0` of `wfp_scan`. -/
def wfp_scan.is_file (line : CStr) : Bool :=
  decide (line.take 5 = [102, 105, 108, 101, 61])

/-- Body of the loop of `wfp_scan` for one line of the manifest (the buffer `rec` of the
source is named `record`). -/
def wfp_scan.line (env : Env) (w : WfpEnv) (st : wfp_state) (raw : CStr) : wfp_state :=
  let line := w.trim raw
  let is_component := wfp_scan.is_component line
  let is_file := wfp_scan.is_file line
  let is_wfp := !is_file && !is_component
  let st1 : wfp_state :=
    if (is_component || is_file) && st.read_data then wfp_scan.call env st else st
  let st2 : wfp_state :=
    if is_file then
      let scan := scan_data_reset st1.scan
      let hexmd5 := (line.drop 5).take (MD5_LEN * 2)
      let record := line.drop (5 + MD5_LEN * 2 + 1)
      { st1 with
        scan := { scan with md5 := w.hex_to_bin hexmd5 (MD5_LEN * 2),
                            file_size := env.extract_csv record 1 w.LDB_MAX_REC_LN,
                            file_path := env.extract_csv record 2 w.LDB_MAX_REC_LN },
        read_data := true }
    else st1
  if is_wfp ∧ st2.scan.hash_count < w.MAX_HASHES_READ then
    let fields := wfp_scan.fields line
    let line_nr := atoi (fields.headD [])
    { st2 with scan := wfp_scan.save_hashes w line_nr fields.tail st2.scan }
  else st2

/-- Function `wfp_scan` on the lines of the manifest, `none` when the manifest cannot be
opened: returns the exit code and the final state. -/
def wfp_scan (env : Env) (w : WfpEnv) (scan : scan_data) (manifest : Option (List CStr)) :
    Nat × wfp_state :=
  let scan0 : scan_data := { scan with preload := true }
  match manifest with
  | none => (1, { scan := scan0, read_data := false, calls := [] })
  | some lines =>
    let st := lines.foldl (wfp_scan.line env w) { scan := scan0, read_data := false, calls := [] }
    (0, if st.read_data then wfp_scan.call env st else st)

/-- The digest `ldb_scan` works with: the preloaded one, or the MD5 of the target. -/
def ldb_scan.digest (env : Env) (scan : scan_data) : Digest :=
  if scan.preload then scan.md5 else env.file_md5 scan.file_path

/-- The test of line 210 of `add_match` fails: the record is complete. -/
def match_data.complete (m : match_data) : Prop :=
  m.vendor ≠ [] ∧ m.component ≠ [] ∧ m.url ≠ [] ∧ m.version ≠ [] ∧ m.file ≠ []

instance (m : match_data) : Decidable m.complete := by
  unfold match_data.complete; infer_instance

/-- Two records share vendor and component. -/
def same_component (a b : match_data) : Prop :=
  a.vendor = b.vendor ∧ a.component = b.component

instance (a b : match_data) : Decidable (same_component a b) := by
  unfold same_component; infer_instance

/-- A sequence of calls of `add_match` on one array: each call has its record and its
arguments `total_matches` and `component_match`. -/
def add_matches (scan_limit : Nat) (ms : List match_data) :
    List (match_data × Nat × Bool) → List match_data
  | [] => ms
  | c :: calls => add_matches scan_limit (add_match scan_limit c.1 c.2.1 ms c.2.2) calls

/-- Shape of a match set of `scan_limit` slots: a run of occupied slots, no two of which
share vendor and component, followed by vacant slots. -/
def match_set_inv (scan_limit : Nat) (ms : List match_data) : Prop :=
  ∃ occ vac : List match_data, ms = occ ++ vac ∧ occ.length + vac.length = scan_limit ∧
    (∀ x ∈ occ, x.component ≠ []) ∧ (∀ x ∈ vac, x.component = [] ∧ x.path_ln = 0) ∧
    occ.Pairwise (fun a b => ¬ same_component a b)

/-- Effect of the first loop of `add_match` on one slot. -/
def add_match.place_slot (m x : match_data) : match_data :=
  if same_component x m then add_match.widen m x else x

/-- Shape of a match set of `scan_limit` slots filled with records of positive `path_ln`:
a run of occupied slots in non-decreasing order of `path_ln`, followed by vacant slots. -/
def match_set_sorted (scan_limit : Nat) (ms : List match_data) : Prop :=
  ∃ occ vac : List match_data, ms = occ ++ vac ∧ occ.length + vac.length = scan_limit ∧
    (∀ x ∈ occ, x.component ≠ [] ∧ 0 < x.path_ln) ∧
    (∀ x ∈ vac, x.component = [] ∧ x.path_ln = 0) ∧
    occ.Pairwise (fun a b => a.path_ln ≤ b.path_ln)

/-- The record that `handle_component_record` builds from a COMPONENTS record and passes
to `add_match` (lines 294 to 299). -/
def handle_component_record.built (env : Env) (key subkey : List Nat) (subkey_ln : Nat)
    (raw_data : List Nat) (datalen : Nat) : match_data :=
  let m := fill_match env none (cstr_at (raw_data.take datalen) 0)
  let md5 := memcpy (memcpy m.component_md5 0 key LDB_KEY_LN) LDB_KEY_LN subkey subkey_ln
  { m with component_md5 := md5, file_md5 := md5.take MD5_LEN }

/-- Slot 0 of a set hydrated from COMPONENTS, as the claim describes it: a record that the
size guard lets through and that is complete overwrites the slot when its vendor and
component are not those of the stored record, and widens the version range of the stored
record when they are; any other record leaves the slot as it is. -/
def component_slot_step (env : Env) (key : Digest) (s : match_data)
    (r : List Nat × List Nat) : match_data :=
  if r.2.length = 0 ∧ r.2.length ≥ env.MAX_PATH then s
  else if ¬ (handle_component_record.built env key r.1 r.1.length r.2 r.2.length).complete then s
  else if s.component ≠ [] ∧
      same_component s (handle_component_record.built env key r.1 r.1.length r.2 r.2.length) then
    add_match.widen (handle_component_record.built env key r.1 r.1.length r.2 r.2.length) s
  else add_match.store (handle_component_record.built env key r.1 r.1.length r.2 r.2.length) s

/-! ## Concrete inputs

An index and collaborators on which the code is evaluated at concrete inputs. -/

/-- Field `n` (counted from 1) of a comma-separated record, cut to `limit - 1` bytes. -/
def example_csv (s : CStr) (n limit : Nat) : CStr :=
  (((s.splitOn 44).getD (n - 1) []).take (limit - 1))

/-- Backslashes turned into forward slashes. -/
def example_flip (s : CStr) : CStr :=
  s.map (fun b => if b = 92 then 47 else b)

/-- An environment with an empty index, no SBOM and the default `scan_limit` of 10. -/
def example_env : Env :=
  { scan_limit := 10, sbom := none, blacklisted_assets := none, match_extensions := false,
    MAX_PATH := 1024, MAX_FILE_SIZE := 4194304, sizeof_vendor := 64, sizeof_component := 64,
    sizeof_version := 64, sizeof_url := 1024,
    ldb_key_exists := fun _ _ => false,
    recordset := fun _ _ => [],
    extract_csv := example_csv, flip_slashes := example_flip,
    extension := fun _ => none, blacklisted_extension := fun _ => false,
    unwanted_path := fun _ => false, get_component_record := fun _ => [],
    get_file_size := fun _ => 0, file_md5 := fun _ => List.replicate 16 0,
    read_file := fun _ => [], skip_snippets := fun _ _ => false,
    winnowing := fun _ _ => ([], [], 0),
    snippet_hits := fun _ => false, biggest_snippet := fun _ => none,
    compile_ranges := fun _ => (0, [], []), post_scan := fun ms => ms }

/-- A preloaded scan of a block `file=<md5>,<size>,<path>` with the given fingerprint lines. -/
def example_scan (md5 : Digest) (size path : CStr) (lines : List Nat) : scan_data :=
  { md5 := md5, file_path := path, file_size := size, hashes := lines.map (fun _ => 0),
    lines := lines, hash_count := lines.length, preload := true, total_lines := 0,
    matchmap_size := 0, match_type := matchtype.none, events := [] }

/-- The empty-file digest with its last byte changed from `7e` to `7f`. -/
def digest_7f : Digest :=
  [0xd4, 0x1d, 0x8c, 0xd9, 0x8f, 0x00, 0xb2, 0x04, 0xe9, 0x80, 0x09, 0x98, 0xec, 0xf8, 0x42, 0x7f]

/-- An index whose table COMPONENTS holds the key `digest_7f`, and whose snippet pass hits. -/
def env_7f : Env :=
  { example_env with
    ldb_key_exists := fun t k => decide (t = Table.oss_component ∧ k = digest_7f),
    snippet_hits := fun _ => true }

/-- An index whose tables COMPONENTS and FILES both hold the empty-file digest. -/
def env_empty_md5 : Env :=
  { example_env with ldb_key_exists := fun _ k => decide (k = empty_md5),
                     snippet_hits := fun _ => true }

/-- The block `file=d41d8cd98f00b204e9800998ecf8427f,2,a.c` with one fingerprint on line 1. -/
def scan_7f : scan_data := example_scan digest_7f [50] [97, 46, 99] [1]

/-- The block `file=d41d8cd98f00b204e9800998ecf8427e,2,a.c` with one fingerprint on line 1. -/
def scan_empty_md5 : scan_data := example_scan empty_md5 [50] [97, 46, 99] [1]

/-- A scan of the block `file=0707…07,2,a.c` on which the engine has found a file match. -/
def example_file_scan : scan_data :=
  { example_scan (List.replicate 16 7) [50] [97, 46, 99] [] with match_type := matchtype.file }

/-- An empty prefilled set of a file match, with the default `scan_limit` of 10. -/
def example_prefill : List match_data :=
  prefill_match example_env example_file_scan str_all str_all 100

/-- The record of `acme,lib,r\1,u`, whose version is stored with a backslash. -/
def record_r1 : match_data :=
  fill_match example_env none [97, 99, 109, 101, 44, 108, 105, 98, 44, 114, 92, 49, 44, 117]

/-- The record of `acme,lib,r/2,u`. -/
def record_r2 : match_data :=
  fill_match example_env none [97, 99, 109, 101, 44, 108, 105, 98, 44, 114, 47, 50, 44, 117]

/-- The file record of `acme,lib,1,u` with the path `src/main.c`, of length 10. -/
def record_path10 : match_data :=
  fill_match example_env
    (some (List.replicate 16 1 ++ [115, 114, 99, 47, 109, 97, 105, 110, 46, 99]))
    [97, 99, 109, 101, 44, 108, 105, 98, 44, 49, 44, 117]

/-- The file record of `acme,lib,1,u` with a path of fifty `x`. -/
def record_path50 : match_data :=
  fill_match example_env (some (List.replicate 16 1 ++ List.replicate 50 120))
    [97, 99, 109, 101, 44, 108, 105, 98, 44, 49, 44, 117]

/-- The record of `acme,lib,1.0,u`. -/
def record_v1 : match_data :=
  fill_match example_env none [97, 99, 109, 101, 44, 108, 105, 98, 44, 49, 46, 48, 44, 117]

/-- The record of `acme,lib,2.0,u`. -/
def record_v2 : match_data :=
  fill_match example_env none [97, 99, 109, 101, 44, 108, 105, 98, 44, 50, 46, 48, 44, 117]

/-- An index with `scan_limit = 1` in which every file belongs to a component: the files of
digest `01…01` to `acme,lib,1,u`, all others to `acme,other,1,u`. -/
def env_limit1 : Env :=
  { example_env with
    scan_limit := 1,
    ldb_key_exists := fun _ _ => true,
    get_component_record := fun data =>
      if data.take 16 = List.replicate 16 1 then
        [97, 99, 109, 101, 44, 108, 105, 98, 44, 49, 44, 117]
      else [97, 99, 109, 101, 44, 111, 116, 104, 101, 114, 44, 49, 44, 117] }

/-- A full set of one slot: the FILES record of component `01…01` with a path of twenty
`x`, handled on an empty prefilled set. -/
def set_path20 : List match_data :=
  (handle_file_record env_limit1 (List.replicate 4 7) (List.replicate 12 7) 12
    (List.replicate 16 1 ++ List.replicate 20 120) 36 0
    (prefill_match env_limit1 example_file_scan str_all str_all 100)).2

/-- A FILES record of component `02…02` with the path `src/main.c`, of length 10; the
record has 26 bytes. -/
def raw_path10 : List Nat :=
  List.replicate 16 2 ++ [115, 114, 99, 47, 109, 97, 105, 110, 46, 99]

/-- The digest `ab cd ab cd …` of the scenarios. -/
def digest_abcd : Digest :=
  [0xab, 0xcd, 0xab, 0xcd, 0xab, 0xcd, 0xab, 0xcd, 0xab, 0xcd, 0xab, 0xcd, 0xab, 0xcd, 0xab, 0xcd]

/-- An index whose table COMPONENTS holds `digest_abcd` with the record
`acme,libfoo,1.2.3,u`, and an SBOM string `libfoo,`. -/
def env_sbom : Env :=
  { example_env with
    sbom := some [108, 105, 98, 102, 111, 111, 44],
    ldb_key_exists := fun t k => decide (t = Table.oss_component ∧ k = digest_abcd),
    recordset := fun t k =>
      if t = Table.oss_component ∧ k = digest_abcd then
        [(digest_abcd.drop 4,
          [97, 99, 109, 101, 44, 108, 105, 98, 102, 111, 111, 44, 49, 46, 50, 46, 51, 44, 117])]
      else [] }

/-- The block `file=abcd…,100,a.c` without fingerprints. -/
def scan_abcd : scan_data := example_scan digest_abcd [49, 48, 48] [97, 46, 99] []

/-- The digest `12 34 12 34 …` of a file of the index that the snippet pass selects. -/
def digest_1234 : Digest :=
  [0x12, 0x34, 0x12, 0x34, 0x12, 0x34, 0x12, 0x34, 0x12, 0x34, 0x12, 0x34, 0x12, 0x34, 0x12, 0x34]

/-- An index for a snippet match: the snippet pass selects `digest_1234` with 40 matched
lines in the ranges `10-29,40-59`, and COMPONENTS holds that digest. -/
def env_snippet : Env :=
  { example_env with
    snippet_hits := fun _ => true,
    biggest_snippet := fun _ => some digest_1234,
    compile_ranges := fun _ =>
      (40, [49, 48, 45, 50, 57, 44, 52, 48, 45, 53, 57],
        [49, 48, 48, 45, 49, 49, 57, 44, 50, 48, 48, 45, 50, 49, 57]),
    recordset := fun t k =>
      if t = Table.oss_component ∧ k = digest_1234 then
        [(digest_1234.drop 4,
          [97, 99, 109, 101, 44, 108, 105, 98, 102, 111, 111, 44, 49, 46, 50, 46, 51, 44, 117])]
      else [] }

/-- A scan after the snippet pass: 80 lines, match type `snippet`. -/
def scan_snippet : scan_data :=
  { example_scan digest_abcd [49, 48, 48] [97, 46, 99] [80] with
    total_lines := 80, match_type := matchtype.snippet }

/-- An index whose table FILES holds `digest_abcd` with one record, the path `src/main.c`
of the component `01…01`, and whose table COMPONENTS is empty: the file is an orphan. -/
def env_orphan : Env :=
  { example_env with
    ldb_key_exists := fun t k => decide (t = Table.oss_file ∧ k = digest_abcd),
    recordset := fun t k =>
      if t = Table.oss_file ∧ k = digest_abcd then
        [(digest_abcd.drop 4,
          List.replicate 16 1 ++ [115, 114, 99, 47, 109, 97, 105, 110, 46, 99])]
      else [] }

/-- An index that holds every digest in both tables, with a record for each. -/
def env_full_index : Env :=
  { example_env with
    ldb_key_exists := fun _ _ => true,
    snippet_hits := fun _ => true,
    biggest_snippet := fun _ => some digest_1234,
    recordset := fun _ _ =>
      [(digest_abcd.drop 4,
        [97, 99, 109, 101, 44, 108, 105, 98, 102, 111, 111, 44, 49, 46, 50, 46, 51, 44, 117])] }

/-- The block `file=abcd…,1,a.c` with one fingerprint on line 1: a declared size of 1. -/
def scan_size1 : scan_data := example_scan digest_abcd [49] [97, 46, 99] [1]

/-- A record without vendor: the record of `,lib,1,u`, as `add_match` would receive it if
`fill_match` did not reject it. -/
def record_no_vendor : match_data :=
  { record_v1 with vendor := [] }

/-- The test of the second loop of `add_match`: the slot `x` takes the record `m`. -/
def add_match.takes (m x : match_data) : Prop :=
  x.path_ln > m.path_ln ∨ x.path_ln = 0

instance (m x : match_data) : Decidable (add_match.takes m x) := by
  unfold add_match.takes; infer_instance

/-- The record of `acme,other,1,u` for a file with a path of thirty `y`. -/
def record_path30 : match_data :=
  fill_match example_env (some (List.replicate 16 2 ++ List.replicate 30 121))
    [97, 99, 109, 101, 44, 111, 116, 104, 101, 114, 44, 49, 44, 117]

/-- A set of ten slots that holds `record_path10` and `record_path30`. -/
def set_10_30 : List match_data :=
  add_match 10 record_path30 1 (add_match 10 record_path10 0 example_prefill false) false

/-- The record of `acme,third,1,u` for a file with a path of twenty `z`. -/
def record_path20 : match_data :=
  fill_match example_env (some (List.replicate 16 3 ++ List.replicate 20 122))
    [97, 99, 109, 101, 44, 116, 104, 105, 114, 100, 44, 49, 44, 117]

/-- Three calls of `add_match`, with the paths of length 30, 10 and 20 of three components. -/
def calls_30_10_20 : List (match_data × Nat × Bool) :=
  [(record_path30, 0, false), (record_path10, 1, false), (record_path20, 1, false)]

/-- Two COMPONENTS records of one digest: `acme,lib,1,u` and then `acme,other,1,u`. -/
def records_lib_other : List (List Nat × List Nat) :=
  [(digest_abcd.drop 4, [97, 99, 109, 101, 44, 108, 105, 98, 44, 49, 44, 117]),
   (digest_abcd.drop 4, [97, 99, 109, 101, 44, 111, 116, 104, 101, 114, 44, 49, 44, 117])]

/-- A scan of `digest_abcd` on which the engine has found a component match. -/
def example_component_scan : scan_data :=
  { scan_abcd with match_type := matchtype.component }

/-- A COMPONENTS record of 1112 bytes, longer than `MAX_PATH = 1024`: `acme,lib,1,u`
followed by 1100 more bytes of url. -/
def raw_oversize : List Nat :=
  [97, 99, 109, 101, 44, 108, 105, 98, 44, 49, 44, 117] ++ List.replicate 1100 120

/-- An index whose table COMPONENTS holds `digest_abcd` with the record `acme,foo,1.2.3,u`,
and an SBOM string `libfoo,` that declares `libfoo` only. -/
def env_sbom_foo : Env :=
  { example_env with
    sbom := some [108, 105, 98, 102, 111, 111, 44],
    ldb_key_exists := fun t k => decide (t = Table.oss_component ∧ k = digest_abcd),
    recordset := fun t k =>
      if t = Table.oss_component ∧ k = digest_abcd then
        [(digest_abcd.drop 4,
          [97, 99, 109, 101, 44, 102, 111, 111, 44, 49, 46, 50, 46, 51, 44, 117])]
      else [] }

/-- Value of a hexadecimal digit. -/
def example_hexval (b : Nat) : Nat :=
  if 48 ≤ b ∧ b ≤ 57 then b - 48
  else if 97 ≤ b ∧ b ≤ 102 then b - 87
  else if 65 ≤ b ∧ b ≤ 70 then b - 55
  else 0

/-- Bytes of a string of hexadecimal digits, two digits to a byte. -/
def example_hex_pairs : CStr → List Nat
  | a :: b :: rest => (16 * example_hexval a + example_hexval b) :: example_hex_pairs rest
  | _ => []

/-- Collaborators of `wfp_scan` for the examples, with the cap `MAX_HASHES_READ` given. -/
def example_wfp (cap : Nat) : WfpEnv :=
  { MAX_HASHES_READ := cap, LDB_MAX_REC_LN := 65535, trim := fun l => l,
    hex_to_bin := fun s n => example_hex_pairs (s.take n),
    uint32_reverse := List.reverse }

/-- The header `file=aaaa…aa,100,a.c`. -/
def line_file_a : CStr :=
  [102, 105, 108, 101, 61] ++ List.replicate 32 97 ++ [44, 49, 48, 48, 44, 97, 46, 99]

/-- The header `file=bbbb…bb,100,b.c`. -/
def line_file_b : CStr :=
  [102, 105, 108, 101, 61] ++ List.replicate 32 98 ++ [44, 49, 48, 48, 44, 98, 46, 99]

/-- The header `component=cccc…cc,acme,lib,1.0`. -/
def line_component : CStr :=
  [99, 111, 109, 112, 111, 110, 101, 110, 116, 61] ++ List.replicate 32 99 ++
    [44, 97, 99, 109, 101, 44, 108, 105, 98, 44, 49, 46, 48]

/-- The fingerprint `aabbccdd`. -/
def fp_hex : CStr := [97, 97, 98, 98, 99, 99, 100, 100]

/-- The text of `n + 1` fingerprints `aabbccdd` separated by commas. -/
def fp_list : Nat → CStr
  | 0 => fp_hex
  | n + 1 => fp_hex ++ 44 :: fp_list n

/-- The fingerprint line `1=aabbccdd,…,aabbccdd` with `n + 1` fingerprints. -/
def line_fp (n : Nat) : CStr := 49 :: 61 :: fp_list n

/-- A manifest that conforms to the grammar: a file block, a component line, a file block. -/
def manifest_file_component_file : List CStr :=
  [line_file_a, line_fp 0, line_component, line_file_b, line_fp 0]

/-- A scan as `scan_data_init` leaves it for the manifest `m.wfp`. -/
def scan_init : scan_data :=
  { example_scan (List.replicate 16 0) [] [109, 46, 119, 102, 112] [] with preload := false }

/-- The scan of `scan_snippet` with a negative number of lines. -/
def scan_snippet_neg : scan_data :=
  { scan_snippet with total_lines := -5 }

/-- A manifest of one file block whose fingerprint line is `-5=aabbccdd`. -/
def manifest_negative_line : List CStr :=
  [line_file_a, [45, 53, 61] ++ fp_hex]

/-- Two COMPONENTS records of one digest: `acme,lib,r\1,u` and then `acme,lib,r/2,u`. -/
def records_r1_r2 : List (List Nat × List Nat) :=
  [(digest_abcd.drop 4, [97, 99, 109, 101, 44, 108, 105, 98, 44, 114, 92, 49, 44, 117]),
   (digest_abcd.drop 4, [97, 99, 109, 101, 44, 108, 105, 98, 44, 114, 47, 50, 44, 117])]

/-! ## Properties -/

/-! ### Strings -/

theorem strcmp_eq_zero_iff (a b : CStr) : strcmp a b = 0 ↔ a = b := by
  induction a generalizing b with
  | nil => cases b <;> simp [strcmp]
  | cons x xs ih =>
    cases b with
    | nil => simp [strcmp]
    | cons y ys =>
      simp only [strcmp]
      by_cases h1 : x < y
      · simp [h1]; omega
      · by_cases h2 : y < x
        · simp [h1, h2]; omega
        · have : x = y := by omega
          simp [h1, h2, ih, this]

theorem strcmp_neg_iff (a b : CStr) : strcmp a b < 0 ↔ a < b := by
  induction a generalizing b with
  | nil =>
    cases b with
    | nil => simp [strcmp]
    | cons y ys => simp only [strcmp]; exact ⟨fun _ => List.Lex.nil, fun _ => by omega⟩
  | cons x xs ih =>
    cases b with
    | nil => simp [strcmp]
    | cons y ys =>
      simp only [strcmp]
      by_cases h1 : x < y
      · simp only [h1, if_true]
        exact ⟨fun _ => List.Lex.rel h1, fun _ => by omega⟩
      · by_cases h2 : y < x
        · simp only [h1, h2, if_true, if_false]
          constructor
          · intro h; omega
          · intro h
            cases h with
            | cons h => omega
            | rel h => exact absurd h h1
        · have hxy : x = y := by omega
          subst hxy
          simp only [h1, if_false, ih]
          constructor
          · intro h; exact List.Lex.cons h
          · intro h
            cases h with
            | cons h => exact h
            | rel h => exact absurd h h1

theorem strcmp_pos_iff (a b : CStr) : 0 < strcmp a b ↔ b < a := by
  induction a generalizing b with
  | nil =>
    cases b with
    | nil => simp [strcmp]
    | cons y ys => simp [strcmp]
  | cons x xs ih =>
    cases b with
    | nil => simp only [strcmp]; exact ⟨fun _ => List.Lex.nil, fun _ => by omega⟩
    | cons y ys =>
      simp only [strcmp]
      by_cases h1 : x < y
      · simp only [h1, if_true]
        constructor
        · intro h; omega
        · intro h
          cases h with
          | cons h => omega
          | rel h => omega
      · by_cases h2 : y < x
        · simp only [h1, h2, if_true, if_false]
          exact ⟨fun _ => List.Lex.rel h2, fun _ => by omega⟩
        · have hxy : x = y := by omega
          subst hxy
          simp only [h1, if_false, ih]
          constructor
          · intro h; exact List.Lex.cons h
          · intro h
            cases h with
            | cons h => exact h
            | rel h => exact absurd h h1

/-! ### The match engine -/

theorem zero_bytes_iff (md5 : Digest) :
    zero_bytes md5 = true ↔ ∀ i, i < 15 → md5.getD i 0 = empty_md5.getD i 0 := by
  simp [zero_bytes, List.all_eq_true]

theorem ldb_scan_file_of_zero_bytes (env : Env) (fid : Digest) (h : zero_bytes fid = true) :
    ldb_scan_file env fid = matchtype.none := by
  simp [ldb_scan_file, h]

theorem ldb_scan_file_component (env : Env) (fid : Digest) (hz : zero_bytes fid = false)
    (hc : env.ldb_key_exists Table.oss_component fid = true) :
    ldb_scan_file env fid = matchtype.component := by
  simp [ldb_scan_file, hz, hc]

theorem ldb_scan_snippets_cases (env : Env) (scan : scan_data) :
    ldb_scan_snippets env scan = matchtype.none ∨
      ldb_scan_snippets env scan = matchtype.snippet := by
  unfold ldb_scan_snippets
  split <;> simp

theorem load_snippets_match_type (env : Env) (scan : scan_data) (file_size : Nat) :
    (ldb_scan.load_snippets env scan file_size).match_type = scan.match_type := by
  unfold ldb_scan.load_snippets
  dsimp only
  split_ifs <;> rfl

theorem load_snippets_events (env : Env) (scan : scan_data) (file_size : Nat) :
    (ldb_scan.load_snippets env scan file_size).events = scan.events := by
  unfold ldb_scan.load_snippets
  dsimp only
  split_ifs <;> rfl

/-- The digest the match engine looks up is the digest of the scan. -/
theorem engine_lookup_digest (env : Env) (scan : scan_data) :
    (if ¬ scan.preload then env.file_md5 scan.file_path else scan.md5) =
      ldb_scan.digest env scan := by
  unfold ldb_scan.digest
  cases scan.preload <;> simp

/-- What holds of tier precedence: when the target is not skipped and `zero_bytes` answers
false for its digest, a digest that is a key of COMPONENTS gives `component`, and the only
event of the engine is the call of `ldb_scan_file`. -/
theorem engine_component (env : Env) (scan : scan_data)
    (hskip : ldb_scan.skip env
      (if ¬ scan.preload then
        { scan with matchmap_size := 0, match_type := matchtype.none,
                    md5 := env.file_md5 scan.file_path }
       else { scan with matchmap_size := 0, match_type := matchtype.none }) = false)
    (hz : zero_bytes (ldb_scan.digest env scan) = false)
    (hc : env.ldb_key_exists Table.oss_component (ldb_scan.digest env scan) = true) :
    (ldb_scan.engine env scan).match_type = matchtype.component ∧
      (ldb_scan.engine env scan).events =
        scan.events ++ [Event.ldb_scan_file (ldb_scan.digest env scan)] := by
  unfold ldb_scan.engine ldb_scan.digest at *
  cases hp : scan.preload <;> simp [hp] at hskip hz hc ⊢ <;>
    simp [hskip, ldb_scan_file_component env _ hz hc]

/-- With a digest for which `zero_bytes` answers true, the engine ends in `none` or
`snippet`. -/
theorem engine_of_zero_bytes (env : Env) (scan : scan_data)
    (hz : zero_bytes (ldb_scan.digest env scan) = true) :
    (ldb_scan.engine env scan).match_type = matchtype.none ∨
      (ldb_scan.engine env scan).match_type = matchtype.snippet := by
  have hf := ldb_scan_file_of_zero_bytes env _ hz
  unfold ldb_scan.engine
  unfold ldb_scan.digest at hf
  cases hp : scan.preload <;> simp only [hp] at hf ⊢ <;>
    simp only [Bool.false_eq_true, not_false_eq_true, not_true_eq_false, if_true, if_false]
      at hf ⊢ <;>
    split_ifs <;> simp_all [load_snippets_match_type, ldb_scan_snippets_cases]

/-! ### The match type through compilation and output -/

theorem load_matches_match_type (env : Env) (scan : scan_data) (md5 : Digest) :
    (load_matches env scan md5).1.match_type = scan.match_type := by
  unfold load_matches
  dsimp only
  split_ifs <;> rfl

theorem compile_matches_match_type (env : Env) (scan : scan_data) :
    ((compile_matches env scan).2 = none ∧
        (compile_matches env scan).1.match_type = matchtype.none) ∨
      ((compile_matches env scan).2 ≠ none ∧
        (compile_matches env scan).1.match_type = scan.match_type) := by
  unfold compile_matches
  dsimp only
  split
  · left; exact ⟨rfl, rfl⟩
  · split
    · left; exact ⟨rfl, rfl⟩
    · rename_i ms hms
      right
      refine ⟨by simp, ?_⟩
      dsimp only
      split_ifs
      · exact load_matches_match_type env scan _
      · rfl

theorem ldb_scan_match_type (env : Env) (scan : scan_data) :
    (ldb_scan env scan).scan_out.match_type = matchtype.none ∨
      (ldb_scan env scan).scan_out.match_type = (ldb_scan.engine env scan).match_type := by
  unfold ldb_scan
  dsimp only
  rcases compile_matches_match_type env (ldb_scan.engine env scan) with ⟨_, h⟩ | ⟨_, h⟩ <;>
    split_ifs <;> simp_all

/-- C3, evaluated on the code: `zero_bytes` answers true for the 16-byte digest
`d41d8cd98f00b204e9800998ecf8427f`, which differs from the empty-file digest in its last
byte: the loop of `zero_bytes` stops at index 14. The digest is treated as the empty file
and `ldb_scan_file` does not look it up, although it is a key of COMPONENTS. -/
theorem zero_bytes_ignores_last_byte :
    digest_7f.length = 16 ∧ digest_7f ≠ empty_md5 ∧ zero_bytes digest_7f = true ∧
      env_7f.ldb_key_exists Table.oss_component digest_7f = true ∧
      ldb_scan_file env_7f digest_7f = matchtype.none := by
  decide

/-- C1, evaluated on the code: the block `file=d41d8cd98f00b204e9800998ecf8427f,2,a.c` is
larger than 1 byte, is not skipped, its digest is not the empty-file digest and is a key of
COMPONENTS; the engine does not set `component`: it runs the snippet pass and ends in
`snippet`. -/
theorem engine_misses_component :
    scan_7f.md5 ≠ empty_md5 ∧ ldb_scan.file_size env_7f scan_7f = 2 ∧
      ldb_scan.skip env_7f scan_7f = false ∧
      env_7f.ldb_key_exists Table.oss_component scan_7f.md5 = true ∧
      (ldb_scan.engine env_7f scan_7f).match_type = matchtype.snippet ∧
      (ldb_scan.engine env_7f scan_7f).events =
        [Event.ldb_scan_file digest_7f, Event.ldb_scan_snippets] := by
  decide

/-- C2: a scan whose digest is the empty-file digest d41d8cd98f00b204e9800998ecf8427e never
reaches the serializer with match type `file` or `component`, whatever the tables hold. -/
theorem ldb_scan_empty_md5 (env : Env) (scan : scan_data)
    (h : ldb_scan.digest env scan = empty_md5) :
    (ldb_scan env scan).scan_out.match_type ≠ matchtype.file ∧
      (ldb_scan env scan).scan_out.match_type ≠ matchtype.component := by
  have hz : zero_bytes (ldb_scan.digest env scan) = true := by rw [h]; decide
  rcases ldb_scan_match_type env scan with h1 | h1 <;>
    rcases engine_of_zero_bytes env scan hz with h2 | h2 <;>
    simp_all

theorem ldb_scan_empty_md5_witness :
    ldb_scan.digest env_empty_md5 scan_empty_md5 = empty_md5 ∧
      env_empty_md5.ldb_key_exists Table.oss_component empty_md5 = true ∧
      (ldb_scan env_empty_md5 scan_empty_md5).scan_out.match_type ≠ matchtype.file ∧
      (ldb_scan env_empty_md5 scan_empty_md5).scan_out.match_type ≠ matchtype.component :=
  ⟨by decide, by decide, ldb_scan_empty_md5 env_empty_md5 scan_empty_md5 (by decide)⟩

/-! ### `add_match` on a prefilled set -/

theorem count_loop_replicate (k n : Nat) (z : match_data) (hz : z.component = []) :
    count_matches.loop k (List.replicate n z) = 0 := by
  cases k with
  | zero => simp [count_matches.loop]
  | succ k =>
    cases n with
    | zero => simp [count_matches.loop]
    | succ n => simp [List.replicate_succ, count_matches.loop, hz]

theorem widen_vendor (m x : match_data) : (add_match.widen m x).vendor = x.vendor := by
  unfold add_match.widen; dsimp only; split_ifs <;> rfl

theorem widen_component (m x : match_data) :
    (add_match.widen m x).component = x.component := by
  unfold add_match.widen; dsimp only; split_ifs <;> rfl

theorem widen_path_ln (m x : match_data) : (add_match.widen m x).path_ln = x.path_ln := by
  unfold add_match.widen; dsimp only; split_ifs <;> rfl

theorem widen_file (m x : match_data) : (add_match.widen m x).file = x.file := by
  unfold add_match.widen; dsimp only; split_ifs <;> rfl

theorem widen_matched (m x : match_data) : (add_match.widen m x).matched = x.matched := by
  unfold add_match.widen; dsimp only; split_ifs <;> rfl

/-- An incomplete record leaves the array as it is. -/
theorem add_match_incomplete (L : Nat) (m : match_data) (t : Nat) (ms : List match_data)
    (c : Bool) (h : ¬ m.complete) : add_match L m t ms c = ms := by
  unfold add_match
  have : m.vendor = [] ∨ m.component = [] ∨ m.url = [] ∨ m.version = [] ∨ m.file = [] := by
    unfold match_data.complete at h
    by_contra hn
    simp only [not_or] at hn
    exact h ⟨hn.1, hn.2.1, hn.2.2.1, hn.2.2.2.1, hn.2.2.2.2⟩
  simp [this]

theorem add_match_complete (L : Nat) (m : match_data) (t : Nat) (ms : List match_data)
    (c : Bool) (h : m.complete) :
    add_match L m t ms c =
      if (add_match.place m (count_matches.loop L ms) ms).1 = true then
        (add_match.place m (count_matches.loop L ms) ms).2
      else add_match.add_new m L (add_match.place m (count_matches.loop L ms) ms).2 := by
  unfold add_match
  obtain ⟨h1, h2, h3, h4, h5⟩ := h
  simp only [h1, h2, h3, h4, h5, or_self, if_false, count_matches]
  split_ifs <;> simp_all

/-- First record into an empty prefilled set: it is stored in slot 0. -/
theorem add_match_first (k : Nat) (m z : match_data) (t : Nat) (c : Bool)
    (hm : m.complete) (hz : z.component = []) (hp : z.path_ln = 0) :
    add_match (k + 1) m t (List.replicate (k + 1) z) c =
      add_match.store m z :: List.replicate k z := by
  rw [add_match_complete _ _ _ _ _ hm, count_loop_replicate _ _ _ hz]
  simp [add_match.place, List.replicate_succ, add_match.add_new, hp]

/-- Second record of the same vendor and component: slot 0 is widened, nothing else changes. -/
theorem add_match_second (k : Nat) (m s z : match_data) (t : Nat) (c : Bool)
    (hm : m.complete) (hs : s.component ≠ []) (hz : z.component = [])
    (hsame : same_component s m) :
    add_match (k + 1) m t (s :: List.replicate k z) c =
      add_match.widen m s :: List.replicate k z := by
  rw [add_match_complete _ _ _ _ _ hm]
  have hc : count_matches.loop (k + 1) (s :: List.replicate k z) = 1 := by
    simp [count_matches.loop, hs, count_loop_replicate _ _ _ hz]
  rw [hc]
  obtain ⟨hv, hcmp⟩ := hsame
  simp [add_match.place, (strcmp_eq_zero_iff _ _).2 hv, (strcmp_eq_zero_iff _ _).2 hcmp]

theorem strcmp_swap (a b : CStr) : strcmp b a = - strcmp a b := by
  induction a generalizing b with
  | nil => cases b <;> simp [strcmp]
  | cons x xs ih =>
    cases b with
    | nil => simp [strcmp]
    | cons y ys =>
      simp only [strcmp]
      by_cases h1 : x < y
      · have h2 : ¬ y < x := by omega
        simp [h1, h2]
      · by_cases h2 : y < x
        · simp [h1, h2]
        · simp [h1, h2, ih]

theorem prefill_match_eq (env : Env) (scan : scan_data) (lines oss_lines : CStr) (pct : Int) :
    ∃ z : match_data, z.component = [] ∧ z.path_ln = 0 ∧
      z.matched = sprintf_percent (if pct > 100 then 100 else pct) ∧
      prefill_match env scan lines oss_lines pct = List.replicate env.scan_limit z :=
  ⟨_, rfl, rfl, rfl, rfl⟩

/-- C4, evaluated on the code: the two COMPONENTS records `acme,lib,r\1,u` and
`acme,lib,r/2,u` give complete records of one component with versions `r/1 < r/2`.
`fill_match` copies `latest_version` from `version` before it flips the slashes of
`version`, so the first record carries `version = r/1` and `latest_version = r\1`; after
`add_match` on both, directly or through `handle_component_record`, the one stored record
has `version = r/1` and `latest_version = r\1`, not `r/2`. -/
theorem add_match_version_merge_counterexample :
    record_r1.complete ∧ record_r2.complete ∧ same_component record_r1 record_r2 ∧
      record_r1.version = [114, 47, 49] ∧ record_r2.version = [114, 47, 50] ∧
      record_r1.latest_version = [114, 92, 49] ∧
      strcmp record_r1.version record_r2.version < 0 ∧
      count_matches 10 (some (add_match 10 record_r2 1
        (add_match 10 record_r1 0 example_prefill true) true)) = 1 ∧
      (add_match 10 record_r2 1 (add_match 10 record_r1 0 example_prefill true) true)[0]?.map
        (fun x => (x.version, x.latest_version)) = some ([114, 47, 49], [114, 92, 49]) ∧
      (ldb_fetch_recordset.loop (handle_component_record example_env) digest_abcd
        records_r1_r2 0 example_prefill).2[0]?.map
        (fun x => (x.version, x.latest_version)) = some ([114, 47, 49], [114, 92, 49]) := by
  decide

/-- What holds of version merging: with `scan_limit ≥ 1`, for two complete records of one
vendor and component whose versions are `v1 < v2` in byte order and whose `latest_version`
equals their `version` (as `fill_match` leaves it when `flip_slashes` does not change the
version), `add_match` on both, in either order, from an empty prefilled set leaves exactly
one stored record, with `version = v1` and `latest_version = v2`. -/
theorem add_match_version_merge (env : Env) (scan : scan_data) (lines oss_lines : CStr)
    (pct : Int) (r1 r2 : match_data) (t1 t2 : Nat) (c1 c2 : Bool) (ms : List match_data)
    (hL : 1 ≤ env.scan_limit) (h1 : r1.complete) (h2 : r2.complete)
    (hs : same_component r1 r2) (hlt : r1.version < r2.version)
    (hl1 : r1.latest_version = r1.version) (hl2 : r2.latest_version = r2.version)
    (hms : ms = add_match env.scan_limit r2 t2
              (add_match env.scan_limit r1 t1 (prefill_match env scan lines oss_lines pct) c1) c2 ∨
           ms = add_match env.scan_limit r1 t1
              (add_match env.scan_limit r2 t2 (prefill_match env scan lines oss_lines pct) c2) c1) :
    count_matches env.scan_limit (some ms) = 1 ∧
      ∃ x, ms[0]? = some x ∧ x.version = r1.version ∧ x.latest_version = r2.version := by
  obtain ⟨z, hzc, hzp, -, hpre⟩ := prefill_match_eq env scan lines oss_lines pct
  obtain ⟨k, hk⟩ : ∃ k, env.scan_limit = k + 1 := ⟨env.scan_limit - 1, by omega⟩
  rw [hpre, hk] at hms
  rw [hk]
  have hneg : strcmp r1.version r2.version < 0 := (strcmp_neg_iff _ _).2 hlt
  have hpos : 0 < strcmp r2.version r1.version := by rw [strcmp_swap]; omega
  have hc1 : (add_match.store r1 z).component ≠ [] := h1.2.1
  have hc2 : (add_match.store r2 z).component ≠ [] := h2.2.1
  have hs12 : same_component (add_match.store r1 z) r2 := hs
  have hs21 : same_component (add_match.store r2 z) r1 := ⟨hs.1.symm, hs.2.symm⟩
  rcases hms with hms | hms
  · rw [add_match_first k r1 z t1 c1 h1 hzc hzp,
      add_match_second k r2 _ z t2 c2 h2 hc1 hzc hs12] at hms
    subst hms
    refine ⟨?_, _, List.getElem?_cons_zero, ?_, ?_⟩
    · simp [count_matches, count_matches.loop, widen_component, hc1,
        count_loop_replicate _ _ _ hzc]
    · have : ¬ strcmp r2.version r1.version < 0 := by omega
      unfold add_match.widen
      simp only [add_match.store, this, if_false, hl1, hpos, if_true]
    · have : ¬ strcmp r2.version r1.version < 0 := by omega
      unfold add_match.widen
      simp only [add_match.store, this, if_false, hl1, hpos, if_true, gt_iff_lt]
  · rw [add_match_first k r2 z t2 c2 h2 hzc hzp,
      add_match_second k r1 _ z t1 c1 h1 hc2 hzc hs21] at hms
    subst hms
    refine ⟨?_, _, List.getElem?_cons_zero, ?_, ?_⟩
    · simp [count_matches, count_matches.loop, widen_component, hc2,
        count_loop_replicate _ _ _ hzc]
    · have : ¬ 0 < strcmp r1.version r2.version := by omega
      unfold add_match.widen
      simp only [add_match.store, hneg, if_true, hl2, gt_iff_lt, this, if_false]
    · have : ¬ 0 < strcmp r1.version r2.version := by omega
      unfold add_match.widen
      simp only [add_match.store, hneg, if_true, hl2, gt_iff_lt, this, if_false]

theorem add_match_version_merge_witness :
    record_v1.complete ∧ record_v2.complete ∧ same_component record_v1 record_v2 ∧
      record_v1.version < record_v2.version ∧
      count_matches example_env.scan_limit
        (some (add_match example_env.scan_limit record_v1 1
          (add_match example_env.scan_limit record_v2 0
            (prefill_match example_env example_file_scan str_all str_all 100) true) true)) = 1 ∧
      ∃ x, (add_match example_env.scan_limit record_v1 1
          (add_match example_env.scan_limit record_v2 0
            (prefill_match example_env example_file_scan str_all str_all 100) true) true)[0]?
          = some x ∧ x.version = record_v1.version ∧ x.latest_version = record_v2.version :=
  ⟨by decide, by decide, by decide, (strcmp_neg_iff _ _).1 (by decide),
    add_match_version_merge example_env example_file_scan str_all str_all 100
      record_v1 record_v2 1 0 true true _ (by decide) (by decide) (by decide) (by decide)
      ((strcmp_neg_iff _ _).1 (by decide)) (by decide) (by decide) (Or.inr rfl)⟩

/-- C6, the claim as stated fails: when the record with the path of length 50 arrives first
and the record of the same component with the path of length 10 second, the one record kept
carries the path of length 50. -/
theorem add_match_path_preference_counterexample :
    record_path10.complete ∧ record_path50.complete ∧
      same_component record_path10 record_path50 ∧
      record_path10.file.length = 10 ∧ record_path10.path_ln = 10 ∧
      record_path50.file.length = 50 ∧ record_path50.path_ln = 50 ∧
      count_matches 10 (some (add_match 10 record_path10 1
        (add_match 10 record_path50 0 example_prefill false) false)) = 1 ∧
      (add_match 10 record_path10 1 (add_match 10 record_path50 0 example_prefill false) false)[0]?.map
        (fun x => (x.file, x.path_ln)) = some (List.replicate 50 120, 50) := by
  decide

/-- C6, amended: with `scan_limit ≥ 1`, for two complete records `a` and `b` of one vendor
and component whose paths have length 10 and 50, after both are added to an empty prefilled
set the one record kept carries the path of the record that arrived first: the path of
length 10 (`file` and `path_ln = 10`) when `a` arrives first, the path of length 50 when `b`
arrives first. -/
theorem add_match_keeps_first_path (env : Env) (scan : scan_data) (lines oss_lines : CStr)
    (pct : Int) (a b : match_data) (ta tb : Nat) (ca cb : Bool)
    (hL : 1 ≤ env.scan_limit) (ha : a.complete) (hb : b.complete)
    (hs : same_component a b) (h10 : a.path_ln = 10) (h50 : b.path_ln = 50) :
    (count_matches env.scan_limit (some (add_match env.scan_limit b tb
        (add_match env.scan_limit a ta (prefill_match env scan lines oss_lines pct) ca) cb)) = 1 ∧
      ∃ x, (add_match env.scan_limit b tb
        (add_match env.scan_limit a ta (prefill_match env scan lines oss_lines pct) ca) cb)[0]?
          = some x ∧ x.file = a.file ∧ x.path_ln = 10) ∧
    (count_matches env.scan_limit (some (add_match env.scan_limit a ta
        (add_match env.scan_limit b tb (prefill_match env scan lines oss_lines pct) cb) ca)) = 1 ∧
      ∃ x, (add_match env.scan_limit a ta
        (add_match env.scan_limit b tb (prefill_match env scan lines oss_lines pct) cb) ca)[0]?
          = some x ∧ x.file = b.file ∧ x.path_ln = 50) := by
  obtain ⟨z, hzc, hzp, -, hpre⟩ := prefill_match_eq env scan lines oss_lines pct
  obtain ⟨k, hk⟩ : ∃ k, env.scan_limit = k + 1 := ⟨env.scan_limit - 1, by omega⟩
  rw [hpre, hk]
  have hca : (add_match.store a z).component ≠ [] := ha.2.1
  have hcb : (add_match.store b z).component ≠ [] := hb.2.1
  have hsab : same_component (add_match.store a z) b := hs
  have hsba : same_component (add_match.store b z) a := ⟨hs.1.symm, hs.2.symm⟩
  rw [add_match_first k a z ta ca ha hzc hzp, add_match_second k b _ z tb cb hb hca hzc hsab,
    add_match_first k b z tb cb hb hzc hzp, add_match_second k a _ z ta ca ha hcb hzc hsba]
  refine ⟨⟨?_, _, List.getElem?_cons_zero, ?_, ?_⟩, ⟨?_, _, List.getElem?_cons_zero, ?_, ?_⟩⟩
  · simp [count_matches, count_matches.loop, widen_component, hca,
      count_loop_replicate _ _ _ hzc]
  · rw [widen_file]; rfl
  · rw [widen_path_ln]; exact h10
  · simp [count_matches, count_matches.loop, widen_component, hcb,
      count_loop_replicate _ _ _ hzc]
  · rw [widen_file]; rfl
  · rw [widen_path_ln]; exact h50

theorem add_match_keeps_first_path_witness :
    record_path10.complete ∧ record_path50.complete ∧
      same_component record_path10 record_path50 ∧
      (add_match example_env.scan_limit record_path10 1
        (add_match example_env.scan_limit record_path50 0
          (prefill_match example_env example_file_scan str_all str_all 100) false) false)[0]?.map
        (fun x => x.path_ln) = some 50 := by
  refine ⟨by decide, by decide, by decide, ?_⟩
  obtain ⟨x, hx, -, hp⟩ := (add_match_keeps_first_path example_env example_file_scan
    str_all str_all 100 record_path10 record_path50 1 0 false false (by decide) (by decide)
    (by decide) (by decide) (by decide) (by decide)).2.2
  rw [hx]; simp [hp]

/-! ### The shape of a match set under `add_match` -/

theorem count_loop_occ_vac (k : Nat) (occ vac : List match_data)
    (ho : ∀ x ∈ occ, x.component ≠ []) (hv : ∀ x ∈ vac, x.component = [] ∧ x.path_ln = 0)
    (hk : occ.length + vac.length ≤ k) :
    count_matches.loop k (occ ++ vac) = occ.length := by
  induction occ generalizing k with
  | nil =>
    cases k with
    | zero => simp [count_matches.loop]
    | succ k =>
      cases vac with
      | nil => simp [count_matches.loop]
      | cons v vac => simp [count_matches.loop, (hv v (List.mem_cons_self _ _)).1]
  | cons x occ ih =>
    cases k with
    | zero => simp at hk
    | succ k =>
      have hx : x.component ≠ [] := ho x (List.mem_cons_self _ _)
      have := ih k (fun y hy => ho y (List.mem_cons_of_mem _ hy))
        (by simp only [List.length_cons] at hk; omega)
      simp [count_matches.loop, hx, this]

theorem place_slot_vendor (m x : match_data) :
    (add_match.place_slot m x).vendor = x.vendor := by
  unfold add_match.place_slot; split_ifs <;> simp [widen_vendor]

theorem place_slot_component (m x : match_data) :
    (add_match.place_slot m x).component = x.component := by
  unfold add_match.place_slot; split_ifs <;> simp [widen_component]

theorem place_occ_vac (m : match_data) (occ vac : List match_data) :
    (add_match.place m occ.length (occ ++ vac)).2 = occ.map (add_match.place_slot m) ++ vac ∧
      ((add_match.place m occ.length (occ ++ vac)).1 = true ↔
        ∃ x ∈ occ, same_component x m) := by
  induction occ with
  | nil => simp [add_match.place]
  | cons x occ ih =>
    have hsame : (strcmp x.vendor m.vendor = 0 ∧ strcmp x.component m.component = 0) ↔
        same_component x m := by
      simp [same_component, strcmp_eq_zero_iff]
    simp only [List.length_cons, List.cons_append, add_match.place, List.map_cons,
      add_match.place_slot]
    by_cases h : same_component x m
    · simp [hsame.2 h, h, ih.1, add_match.place_slot]
    · have h' : ¬ (strcmp x.vendor m.vendor = 0 ∧ strcmp x.component m.component = 0) :=
        fun hh => h (hsame.1 hh)
      simp [h', h, ih.1, ih.2, add_match.place_slot]

theorem add_new_occ_vac (m : match_data) (hm : m.component ≠ [])
    (k : Nat) (occ vac : List match_data)
    (ho : ∀ x ∈ occ, x.component ≠ []) (hv : ∀ x ∈ vac, x.component = [] ∧ x.path_ln = 0)
    (hnew : ∀ x ∈ occ, ¬ same_component x m)
    (hpw : occ.Pairwise (fun a b => ¬ same_component a b))
    (hk : occ.length + vac.length ≤ k) :
    ∃ occ2 vac2 : List match_data, add_match.add_new m k (occ ++ vac) = occ2 ++ vac2 ∧
      occ2.length + vac2.length = occ.length + vac.length ∧
      (∀ x ∈ occ2, x.component ≠ []) ∧ (∀ x ∈ vac2, x.component = [] ∧ x.path_ln = 0) ∧
      occ2.Pairwise (fun a b => ¬ same_component a b) ∧
      (∀ y ∈ occ2, y ∈ occ ∨ same_component y m) := by
  induction occ generalizing k with
  | nil =>
    cases vac with
    | nil =>
      refine ⟨[], [], ?_, rfl, by simp, by simp, List.Pairwise.nil, by simp⟩
      cases k <;> simp [add_match.add_new]
    | cons v vac =>
      cases k with
      | zero => simp at hk
      | succ k =>
        have hvp : v.path_ln = 0 := (hv v (List.mem_cons_self _ _)).2
        refine ⟨[add_match.store m v], vac, ?_, by simp; omega, ?_, ?_, by simp, ?_⟩
        · simp [add_match.add_new, hvp]
        · intro x hx
          simp only [List.mem_singleton] at hx
          subst hx
          exact hm
        · intro x hx
          exact hv x (List.mem_cons_of_mem _ hx)
        · intro y hy
          simp only [List.mem_singleton] at hy
          subst hy
          exact Or.inr ⟨rfl, rfl⟩
  | cons x occ ih =>
    cases k with
    | zero => simp at hk
    | succ k =>
      have hpw' := List.pairwise_cons.1 hpw
      by_cases hc : x.path_ln > m.path_ln ∨ x.path_ln = 0
      · refine ⟨add_match.store m x :: occ, vac, ?_, by simp, ?_, hv, ?_, ?_⟩
        · simp [add_match.add_new, hc]
        · intro y hy
          rcases List.mem_cons.1 hy with rfl | hy
          · exact hm
          · exact ho y (List.mem_cons_of_mem _ hy)
        · refine List.pairwise_cons.2 ⟨?_, hpw'.2⟩
          intro y hy hs
          exact hnew y (List.mem_cons_of_mem _ hy) ⟨hs.1.symm, hs.2.symm⟩
        · intro y hy
          rcases List.mem_cons.1 hy with rfl | hy
          · exact Or.inr ⟨rfl, rfl⟩
          · exact Or.inl (List.mem_cons_of_mem _ hy)
      · obtain ⟨occ2, vac2, he, hl, ho2, hv2, hp2, hmem⟩ :=
          ih k (fun y hy => ho y (List.mem_cons_of_mem _ hy))
            (fun y hy => hnew y (List.mem_cons_of_mem _ hy)) hpw'.2
            (by simp only [List.length_cons] at hk; omega)
        refine ⟨x :: occ2, vac2, ?_, by simp only [List.length_cons]; omega, ?_, hv2, ?_, ?_⟩
        · simp [add_match.add_new, hc, he]
        · intro y hy
          rcases List.mem_cons.1 hy with rfl | hy
          · exact ho _ (List.mem_cons_self _ _)
          · exact ho2 y hy
        · refine List.pairwise_cons.2 ⟨?_, hp2⟩
          intro y hy hs
          rcases hmem y hy with hin | hsm
          · exact hpw'.1 y hin hs
          · exact hnew x (List.mem_cons_self _ _) ⟨hs.1.trans hsm.1, hs.2.trans hsm.2⟩
        · intro y hy
          rcases List.mem_cons.1 hy with rfl | hy
          · exact Or.inl (List.mem_cons_self _ _)
          · rcases hmem y hy with hin | hsm
            · exact Or.inl (List.mem_cons_of_mem _ hin)
            · exact Or.inr hsm

theorem match_set_inv_prefill (env : Env) (scan : scan_data) (lines oss_lines : CStr)
    (pct : Int) : match_set_inv env.scan_limit (prefill_match env scan lines oss_lines pct) := by
  obtain ⟨z, hzc, hzp, -, hpre⟩ := prefill_match_eq env scan lines oss_lines pct
  refine ⟨[], List.replicate env.scan_limit z, by simp [hpre], by simp, by simp, ?_,
    List.Pairwise.nil⟩
  intro x hx
  rw [List.eq_of_mem_replicate hx]
  exact ⟨hzc, hzp⟩

theorem match_set_inv_add_match (L : Nat) (m : match_data) (t : Nat) (ms : List match_data)
    (c : Bool) (h : match_set_inv L ms) : match_set_inv L (add_match L m t ms c) := by
  by_cases hm : m.complete
  · obtain ⟨occ, vac, rfl, hlen, ho, hv, hpw⟩ := h
    rw [add_match_complete _ _ _ _ _ hm, count_loop_occ_vac L occ vac ho hv (by omega)]
    obtain ⟨hp2, hp1⟩ := place_occ_vac m occ vac
    have ho' : ∀ x ∈ occ.map (add_match.place_slot m), x.component ≠ [] := by
      intro x hx
      obtain ⟨y, hy, rfl⟩ := List.mem_map.1 hx
      rw [place_slot_component]
      exact ho y hy
    have hpw' : (occ.map (add_match.place_slot m)).Pairwise
        (fun a b => ¬ same_component a b) := by
      refine List.Pairwise.map _ ?_ hpw
      intro a b hab hs
      apply hab
      unfold same_component at hs ⊢
      simpa only [place_slot_vendor, place_slot_component] using hs
    rw [hp2]
    split_ifs with hplaced
    · exact ⟨_, vac, rfl, by simpa using hlen, ho', hv, hpw'⟩
    · have hnew : ∀ x ∈ occ.map (add_match.place_slot m), ¬ same_component x m := by
        intro x hx hs
        obtain ⟨y, hy, rfl⟩ := List.mem_map.1 hx
        apply hplaced
        refine hp1.2 ⟨y, hy, ?_⟩
        unfold same_component at hs ⊢
        simpa only [place_slot_vendor, place_slot_component] using hs
      obtain ⟨occ2, vac2, he, hl, ho2, hv2, hp2', -⟩ :=
        add_new_occ_vac m hm.2.1 L _ vac ho' hv hnew hpw' (by simp; omega)
      exact ⟨occ2, vac2, he, by simp at hl; omega, ho2, hv2, hp2'⟩
  · rw [add_match_incomplete _ _ _ _ _ hm]
    exact h

theorem match_set_inv_add_matches (L : Nat) (calls : List (match_data × Nat × Bool))
    (ms : List match_data) (h : match_set_inv L ms) :
    match_set_inv L (add_matches L ms calls) := by
  induction calls generalizing ms with
  | nil => exact h
  | cons c calls ih => exact ih _ (match_set_inv_add_match L c.1 c.2.1 ms c.2.2 h)

theorem match_set_inv_unique (L : Nat) (ms : List match_data) (h : match_set_inv L ms) :
    (ms.take (count_matches L (some ms))).Pairwise (fun a b => ¬ same_component a b) := by
  obtain ⟨occ, vac, rfl, hlen, ho, hv, hpw⟩ := h
  simp only [count_matches]
  rw [count_loop_occ_vac L occ vac ho hv (by omega)]
  simpa using hpw

/-- C5: starting from an empty prefilled set, after every sequence of calls of `add_match`
(any records, any path lengths, any `scan_limit`), no two of the records in the first
`count_matches` slots share both vendor and component. -/
theorem add_matches_unique (env : Env) (scan : scan_data) (lines oss_lines : CStr) (pct : Int)
    (calls : List (match_data × Nat × Bool)) :
    ((add_matches env.scan_limit (prefill_match env scan lines oss_lines pct) calls).take
        (count_matches env.scan_limit
          (some (add_matches env.scan_limit (prefill_match env scan lines oss_lines pct)
            calls)))).Pairwise
      (fun a b => ¬ same_component a b) :=
  match_set_inv_unique _ _
    (match_set_inv_add_matches _ calls _ (match_set_inv_prefill env scan lines oss_lines pct))

/-! ### The path-length cap -/

/-- When the set is not full, `longer_path_in_set` answers false. -/
theorem longer_path_in_set_not_full (L : Nat) (ms : List match_data) (total rec_ln : Nat)
    (h : total < L) : longer_path_in_set L ms total rec_ln = false := by
  simp [longer_path_in_set, h]

/-- When the set is full, `longer_path_in_set` compares its argument `rec_ln`, which
`handle_file_record` sets to `datalen`, with the largest stored `path_ln`. -/
theorem longer_path_in_set_full (L : Nat) (ms : List match_data) (total rec_ln : Nat)
    (h : ¬ total < L) :
    longer_path_in_set L ms total rec_ln = true ↔
      rec_ln > longer_path_in_set.loop total ms 0 := by
  simp [longer_path_in_set, h]

/-- C7, evaluated on the code: the set of one slot is full and holds a path of length 20;
the incoming FILES record has a path of length 10, not longer than the stored one, and is
not skipped by `skip_file_path`; `handle_file_record` discards it through
`longer_path_in_set`, to which it passes `datalen = 26`, the length of the record with its
16-byte digest, where the length of the path gives false. -/
theorem handle_file_record_discards_shorter_path :
    env_limit1.scan_limit = 1 ∧ count_matches 1 (some set_path20) = 1 ∧
      set_path20.map (fun x => x.path_ln) = [20] ∧
      raw_path10.length = 26 ∧ (cstr_at raw_path10 MD5_LEN).length = 10 ∧
      skip_file_path env_limit1 (cstr_at raw_path10 MD5_LEN) set_path20 = false ∧
      longer_path_in_set 1 set_path20 1 26 = true ∧
      longer_path_in_set 1 set_path20 1 10 = false ∧
      handle_file_record env_limit1 (List.replicate 4 7) (List.replicate 12 7) 12
        raw_path10 26 1 set_path20 = (false, set_path20) ∧
      (add_match 1 (fill_match env_limit1 (some raw_path10)
          (env_limit1.get_component_record raw_path10)) 1 set_path20 false).map
        (fun x => x.path_ln) = [10] := by
  decide

/-! ### SBOM suppression -/

theorem strstr_iff (hay needle : CStr) : strstr hay needle = true ↔ needle <:+: hay := by
  induction hay with
  | nil => simp [strstr]
  | cons h hay ih =>
    simp only [strstr, Bool.or_eq_true, ih, List.infix_cons_iff, List.isPrefixOf_iff_prefix]

theorem assets_match_iff (env : Env) (m : match_data) :
    assets_match env m = true ↔
      ∃ sbom, env.sbom = some sbom ∧ (m.component ++ [44]) <:+: sbom := by
  unfold assets_match
  cases h : env.sbom with
  | none => simp
  | some sbom => simp [strstr_iff]

theorem asset_matched_iff (env : Env) (k : Nat) (ms : List match_data) :
    ldb_scan.asset_matched env k ms = true ↔ ∃ m ∈ ms.take k, assets_match env m = true := by
  induction ms generalizing k with
  | nil => cases k <;> simp [ldb_scan.asset_matched]
  | cons x ms ih =>
    cases k with
    | zero => simp [ldb_scan.asset_matched]
    | succ k => simp [ldb_scan.asset_matched, ih]

theorem asset_matched_no_sbom (env : Env) (k : Nat) (ms : List match_data)
    (h : env.sbom = none) : ldb_scan.asset_matched env k ms = false := by
  cases hb : ldb_scan.asset_matched env k ms with
  | false => rfl
  | true =>
    obtain ⟨m, -, hm⟩ := (asset_matched_iff env k ms).1 hb
    obtain ⟨sbom, hs, -⟩ := (assets_match_iff env m).1 hm
    rw [h] at hs
    cases hs

/-- A non-NULL result of `compile_matches` comes with a match type other than `none`. -/
theorem compile_matches_some (env : Env) (scan : scan_data) (ms : List match_data)
    (h : (compile_matches env scan).2 = some ms) :
    (compile_matches env scan).1.match_type ≠ matchtype.none := by
  unfold compile_matches at h ⊢
  dsimp only at h ⊢
  split at h
  · cases h
  · split at h
    · cases h
    · rename_i hr
      split_ifs at hr ⊢ with hn
      rw [load_matches_match_type]; exact hn

/-- C8: if the component name of one of the compiled matches, followed by a comma, occurs in
the SBOM string, `ldb_scan` hands the serializer no match set and match type `none`; when
the SBOM string is unset, the serializer gets the compiled set (through `post_scan`) and the
compiled match type. -/
theorem ldb_scan_sbom (env : Env) (scan : scan_data) :
    (∀ (sbom : CStr) (ms : List match_data) (m : match_data),
      env.sbom = some sbom →
      (compile_matches env (ldb_scan.engine env scan)).2 = some ms →
      m ∈ ms.take (count_matches env.scan_limit (some ms)) →
      (m.component ++ [44]) <:+: sbom →
      (ldb_scan env scan).matches_out = none ∧
        (ldb_scan env scan).scan_out.match_type = matchtype.none) ∧
    (env.sbom = none →
      (ldb_scan env scan).matches_out =
          (compile_matches env (ldb_scan.engine env scan)).2.map env.post_scan ∧
        (ldb_scan env scan).scan_out.match_type =
          (compile_matches env (ldb_scan.engine env scan)).1.match_type) := by
  constructor
  · intro sbom ms m hs hc hm hin
    have hsup : ldb_scan.asset_matched env
        (count_matches env.scan_limit (compile_matches env (ldb_scan.engine env scan)).2)
        ((compile_matches env (ldb_scan.engine env scan)).2.getD []) = true := by
      rw [hc]
      exact (asset_matched_iff env _ ms).2 ⟨m, hm, (assets_match_iff env m).2 ⟨sbom, hs, hin⟩⟩
    unfold ldb_scan
    simp [hsup]
  · intro hs
    have hsup := asset_matched_no_sbom env
      (count_matches env.scan_limit (compile_matches env (ldb_scan.engine env scan)).2)
      ((compile_matches env (ldb_scan.engine env scan)).2.getD []) hs
    unfold ldb_scan
    simp only [hsup, Bool.false_eq_true, if_false]
    cases hc : (compile_matches env (ldb_scan.engine env scan)).2 with
    | none =>
      rcases compile_matches_match_type env (ldb_scan.engine env scan) with ⟨-, h⟩ | ⟨h, -⟩
      · simp [h]
      · exact absurd hc h
    | some ms =>
      have := compile_matches_some env _ ms hc
      simp [this]

theorem ldb_scan_sbom_witness :
    env_sbom.sbom = some [108, 105, 98, 102, 111, 111, 44] ∧
      (((compile_matches env_sbom (ldb_scan.engine env_sbom scan_abcd)).2.getD []).map
        (fun x => x.component)).take 1 = [[108, 105, 98, 102, 111, 111]] ∧
      (compile_matches env_sbom (ldb_scan.engine env_sbom scan_abcd)).1.match_type =
        matchtype.component ∧
      (ldb_scan env_sbom scan_abcd).matches_out = none ∧
      (ldb_scan env_sbom scan_abcd).scan_out.match_type = matchtype.none :=
  ⟨rfl, by decide, by decide,
    (ldb_scan_sbom env_sbom scan_abcd).1 [108, 105, 98, 102, 111, 111, 44]
      ((compile_matches env_sbom (ldb_scan.engine env_sbom scan_abcd)).2.getD [])
      (((compile_matches env_sbom (ldb_scan.engine env_sbom scan_abcd)).2.getD []).headD
        match_init)
      rfl (by decide) (by decide) (by decide)⟩

/-! ### Hydration keeps the stamp of `prefill_match` -/

theorem place_map_matched (m : match_data) (n : Nat) (ms : List match_data) :
    (add_match.place m n ms).2.map (fun x => x.matched) = ms.map (fun x => x.matched) := by
  induction ms generalizing n with
  | nil => cases n <;> simp [add_match.place]
  | cons x ms ih =>
    cases n with
    | zero => simp [add_match.place]
    | succ n =>
      simp only [add_match.place]
      split_ifs <;> simp [ih, widen_matched]

theorem add_new_map_matched (m : match_data) (k : Nat) (ms : List match_data) :
    (add_match.add_new m k ms).map (fun x => x.matched) = ms.map (fun x => x.matched) := by
  induction ms generalizing k with
  | nil => cases k <;> simp [add_match.add_new]
  | cons x ms ih =>
    cases k with
    | zero => simp [add_match.add_new]
    | succ k =>
      simp only [add_match.add_new]
      split_ifs <;> simp [ih, add_match.store]

theorem add_match_map_matched (L : Nat) (m : match_data) (t : Nat) (ms : List match_data)
    (c : Bool) :
    (add_match L m t ms c).map (fun x => x.matched) = ms.map (fun x => x.matched) := by
  by_cases hm : m.complete
  · rw [add_match_complete _ _ _ _ _ hm]
    split_ifs
    · exact place_map_matched _ _ _
    · rw [add_new_map_matched, place_map_matched]
  · rw [add_match_incomplete _ _ _ _ _ hm]

/-- What `handle_component_record` does to the array: nothing, or one `add_match`. -/
theorem handle_component_record_cases (env : Env) (key subkey : List Nat) (n : Nat)
    (raw : List Nat) (dl it : Nat) (ms : List match_data) :
    (handle_component_record env key subkey n raw dl it ms).2 = ms ∨
      ∃ m t c, (handle_component_record env key subkey n raw dl it ms).2 =
        add_match env.scan_limit m t ms c := by
  unfold handle_component_record
  dsimp only
  split_ifs
  · exact Or.inl rfl
  · exact Or.inl rfl
  · exact Or.inr ⟨_, count_matches env.scan_limit (some ms), true, rfl⟩

/-- What `handle_file_record` does to the array: nothing, or one `add_match`. -/
theorem handle_file_record_cases (env : Env) (key subkey : List Nat) (n : Nat)
    (raw : List Nat) (dl it : Nat) (ms : List match_data) :
    (handle_file_record env key subkey n raw dl it ms).2 = ms ∨
      ∃ m t c, (handle_file_record env key subkey n raw dl it ms).2 =
        add_match env.scan_limit m t ms c := by
  unfold handle_file_record
  dsimp only
  split_ifs
  all_goals first
    | exact Or.inl rfl
    | exact Or.inr ⟨_, count_matches env.scan_limit (some ms), false, rfl⟩

/-- A property of the array that every call of the handler keeps is kept by the iteration. -/
theorem fetch_loop_induct (P : List match_data → Prop)
    (handler : List Nat → List Nat → Nat → List Nat → Nat → Nat → List match_data →
      Bool × List match_data)
    (hP : ∀ key subkey n raw dl it ms, P ms → P (handler key subkey n raw dl it ms).2)
    (key : Digest) (recs : List (List Nat × List Nat)) (it : Nat) (ms : List match_data)
    (h : P ms) : P (ldb_fetch_recordset.loop handler key recs it ms).2 := by
  induction recs generalizing it ms with
  | nil => exact h
  | cons r recs ih =>
    obtain ⟨subkey, raw⟩ := r
    simp only [ldb_fetch_recordset.loop]
    split_ifs
    · exact hP _ _ _ _ _ _ _ h
    · exact ih _ _ (hP _ _ _ _ _ _ _ h)

/-- A property of the array that `add_match` keeps holds of every array that
`load_matches.fetch` returns, when it holds of the prefilled array. -/
theorem load_matches_fetch_induct (env : Env) (P : List match_data → Prop)
    (hadd : ∀ m t ms c, P ms → P (add_match env.scan_limit m t ms c))
    (scan : scan_data) (md5 : Digest) (lines oss_lines : CStr) (pct : Int)
    (h0 : P (prefill_match env scan lines oss_lines pct)) (ms : List match_data)
    (h : load_matches.fetch env scan md5 lines oss_lines pct = some ms) : P ms := by
  have hc : ∀ key subkey n raw dl it ms, P ms →
      P (handle_component_record env key subkey n raw dl it ms).2 := by
    intro key subkey n raw dl it ms hms
    rcases handle_component_record_cases env key subkey n raw dl it ms with e | ⟨m, t, c, e⟩
    · rw [e]; exact hms
    · rw [e]; exact hadd _ _ _ _ hms
  have hf : ∀ key subkey n raw dl it ms, P ms →
      P (handle_file_record env key subkey n raw dl it ms).2 := by
    intro key subkey n raw dl it ms hms
    rcases handle_file_record_cases env key subkey n raw dl it ms with e | ⟨m, t, c, e⟩
    · rw [e]; exact hms
    · rw [e]; exact hadd _ _ _ _ hms
  unfold load_matches.fetch at h
  dsimp only at h
  have h1 : P (if scan.match_type ≠ matchtype.file then
      ldb_fetch_recordset env Table.oss_component md5 (handle_component_record env)
        (prefill_match env scan lines oss_lines pct)
      else (0, prefill_match env scan lines oss_lines pct)).2 := by
    split_ifs
    · exact fetch_loop_induct P _ hc _ _ _ _ h0
    · exact h0
  split_ifs at h with ht hr hn hr hn
  all_goals
    simp only [Option.some.injEq] at h
    subst h
    first
      | exact fetch_loop_induct P _ hf _ _ _ _ (by simpa [ht] using h1)
      | (simpa [ht] using h1)

/-! ### The matched percent -/

theorem int_to_float_small (q : Int) (h0 : 0 ≤ q) (h : q < 2 ^ 24) : int_to_float q = q := by
  unfold int_to_float
  have : q.natAbs < 2 ^ 24 := by omega
  simp only [this, if_true]

theorem int_to_float_large (q : Int) (h0 : 2 ^ 24 ≤ q) (h : q < 2 ^ 31 - 128) :
    2 ^ 24 ≤ int_to_float q ∧ int_to_float q < 2 ^ 31 := by
  obtain ⟨a, rfl⟩ : ∃ a : Nat, q = a := ⟨q.toNat, by omega⟩
  have ha0 : a ≠ 0 := by omega
  have h1 : 24 ≤ a.log2 := (Nat.le_log2 ha0).2 (by omega)
  have h2 : a.log2 < 31 := (Nat.log2_lt ha0).2 (by omega)
  have h3 : 2 ^ a.log2 ≤ a := Nat.log2_self_le ha0
  have h4 : a < 2 ^ (a.log2 + 1) := Nat.lt_log2_self
  have hs : Int.sign (a : Int) = 1 := Int.sign_eq_one_of_pos (by omega)
  unfold int_to_float
  have hna : ¬ (a : Int).natAbs < 2 ^ 24 := by simp; omega
  simp only [hna, if_false, hs, one_mul, Int.natAbs_ofNat]
  generalize hL : a.log2 = L at *
  interval_cases L <;> norm_num at h3 h4 ⊢ <;> split_ifs <;> constructor <;> omega

/-- The percent of a snippet match as `load_matches` and `prefill_match` compute it, for a
positive number of hits with `hits * 100 < 2 ^ 31 - 128` and a positive number of lines: the
quotient `hits * 100 / total_lines`, capped at 100. -/
theorem snippet_percent (hits total : Int) (h0 : 0 < hits) (h1 : hits * 100 < 2 ^ 31 - 128)
    (ht : 0 < total) :
    (if to_int32 (int_to_float (Int.tdiv (to_int32 (hits * 100)) total)) > 100 then 100
      else to_int32 (int_to_float (Int.tdiv (to_int32 (hits * 100)) total))) =
      min (hits * 100 / total) 100 := by
  have e1 : to_int32 (hits * 100) = hits * 100 := by unfold to_int32; omega
  have e2 : Int.tdiv (hits * 100) total = hits * 100 / total :=
    Int.tdiv_eq_ediv (by omega) (by omega)
  have hq0 : 0 ≤ hits * 100 / total := Int.ediv_nonneg (by omega) (by omega)
  have hq1 : hits * 100 / total ≤ hits * 100 := Int.ediv_le_self _ (by omega)
  rw [e1, e2]
  generalize hits * 100 / total = q at hq0 hq1
  by_cases hs : q < 2 ^ 24
  · rw [int_to_float_small q hq0 hs]
    have : to_int32 q = q := by unfold to_int32; omega
    rw [this]
    split_ifs <;> omega
  · obtain ⟨hl, hu⟩ := int_to_float_large q (by omega) (by omega)
    have : to_int32 (int_to_float q) = int_to_float q := by unfold to_int32; omega
    rw [this]
    split_ifs <;> omega

theorem log2_2147483600 : Nat.log2 2147483600 = 30 := by
  apply Nat.le_antisymm
  · exact Nat.le_of_lt_succ ((Nat.log2_lt (by norm_num)).2 (by norm_num))
  · exact (Nat.le_log2 (by norm_num)).2 (by norm_num)

/-- The bound on the hits is needed: 21474836 hits on one line give `hits * 100 = 2147483600`,
which fits an `int` but is rounded to `2 ^ 31` as a `float`; converted back to `int` (here
by wrapping) the percent is -2147483648, which `prefill_match` does not cap. -/
theorem snippet_percent_above_bound :
    (21474836 : Int) * 100 < 2 ^ 31 ∧ ¬ ((21474836 : Int) * 100 < 2 ^ 31 - 128) ∧
      (if to_int32 (int_to_float (Int.tdiv (to_int32 (21474836 * 100)) 1)) > 100 then 100
        else to_int32 (int_to_float (Int.tdiv (to_int32 (21474836 * 100)) 1))) =
        -2147483648 := by
  have e0 : to_int32 (21474836 * 100) = 2147483600 := by norm_num [to_int32]
  have e1 : (2147483600 : Int).natAbs = 2147483600 := by norm_num
  have e3 : Int.sign (2147483600 : Int) = 1 := Int.sign_eq_one_of_pos (by norm_num)
  have e2 : int_to_float 2147483600 = 2147483648 := by
    unfold int_to_float
    simp only [e1, log2_2147483600, e3]
    norm_num
  rw [e0, Int.tdiv_one, e2]
  norm_num [to_int32]

/-- Every record of an array returned by `load_matches.fetch` carries the stamp that
`prefill_match` wrote. -/
theorem load_matches_fetch_matched (env : Env) (scan : scan_data) (md5 : Digest)
    (lines oss_lines : CStr) (pct : Int) (ms : List match_data)
    (h : load_matches.fetch env scan md5 lines oss_lines pct = some ms) :
    ∀ m ∈ ms, m.matched = sprintf_percent (if pct > 100 then 100 else pct) := by
  have key := load_matches_fetch_induct env
    (fun l => ∀ x ∈ l.map (fun y => y.matched),
      x = sprintf_percent (if pct > 100 then 100 else pct))
    (by intro m t l c hl; rw [add_match_map_matched]; exact hl)
    scan md5 lines oss_lines pct
    (by
      obtain ⟨z, -, -, hzm, hpre⟩ := prefill_match_eq env scan lines oss_lines pct
      intro x hx
      rw [hpre, List.map_replicate] at hx
      rw [List.eq_of_mem_replicate hx, hzm])
    ms h
  intro m hm
  exact key _ (List.mem_map_of_mem _ hm)

/-- C9, the claim as stated fails: with `total_lines = -5`, 40 hits give the quotient -800,
which `prefill_match` does not cap and `%u` prints as 4294966496: every record of the set
that `load_matches` returns is stamped `4294966496%`, outside 0..100. The manifest line
`-5=aabbccdd` brings `ldb_scan` to this state: `wfp_scan` stores the line number in the
unsigned array `lines`, and `ldb_scan` reads it back into the `int` `total_lines`, which is
not 0, so the snippet pass runs. -/
theorem load_matches_percent_counterexample :
    scan_snippet_neg.match_type = matchtype.snippet ∧ scan_snippet_neg.total_lines = -5 ∧
      (env_snippet.compile_ranges digest_1234).1 = 40 ∧
      ((load_matches env_snippet scan_snippet_neg digest_1234).2.getD []).map
          (fun m => m.matched) =
        List.replicate 10 [52, 50, 57, 52, 57, 54, 54, 52, 57, 54, 37] ∧
      (wfp_scan env_snippet (example_wfp 65535) scan_init
          (some manifest_negative_line)).2.calls.map (fun s => (s.lines, s.hash_count)) =
        [([4294967291], 1)] ∧
      (wfp_scan env_snippet (example_wfp 65535) scan_init
          (some manifest_negative_line)).2.calls.map
          (fun s => ((ldb_scan env_snippet s).scan_out.match_type,
            ((ldb_scan env_snippet s).matches_out.getD []).map (fun m => m.matched))) =
        [(matchtype.snippet, List.replicate 10 [52, 50, 57, 52, 57, 54, 54, 52, 57, 54, 37])] := by
  decide

/-- C9, amended: in every match set that `load_matches` returns, each record is stamped with
the percent 100 when the match type is `file` or `component`; for a snippet match with
`hits > 0`, `total_lines > 0` and `hits * 100 < 2 ^ 31 - 128` each record is stamped with
`floor(hits * 100 / total_lines)` capped at 100, a value within 0..100. -/
theorem load_matches_percent (env : Env) (scan : scan_data) (md5 : Digest)
    (ms : List match_data) (h : (load_matches env scan md5).2 = some ms) :
    ((scan.match_type = matchtype.file ∨ scan.match_type = matchtype.component) →
      ∀ m ∈ ms, m.matched = sprintf_percent 100) ∧
    (scan.match_type = matchtype.snippet →
      0 < (env.compile_ranges md5).1 → (env.compile_ranges md5).1 * 100 < 2 ^ 31 - 128 →
      0 < scan.total_lines →
      0 ≤ min ((env.compile_ranges md5).1 * 100 / scan.total_lines) 100 ∧
      min ((env.compile_ranges md5).1 * 100 / scan.total_lines) 100 ≤ 100 ∧
      ∀ m ∈ ms, m.matched =
        sprintf_percent (min ((env.compile_ranges md5).1 * 100 / scan.total_lines) 100)) := by
  constructor
  · intro ht
    have hns : scan.match_type ≠ matchtype.snippet := by
      rcases ht with ht | ht <;> rw [ht] <;> decide
    unfold load_matches at h
    simp only [hns, if_false] at h
    exact load_matches_fetch_matched env scan md5 str_all str_all 100 ms h
  · intro hs h0 h1 ht
    have hne : (env.compile_ranges md5).1 ≠ 0 := by omega
    unfold load_matches at h
    simp only [hs, if_true, hne, if_false, ne_eq, not_false_eq_true] at h
    have key := load_matches_fetch_matched env _ md5 _ _ _ ms h
    rw [snippet_percent _ _ h0 h1 ht] at key
    refine ⟨?_, ?_, key⟩
    · have : 0 ≤ (env.compile_ranges md5).1 * 100 / scan.total_lines :=
        Int.ediv_nonneg (by omega) (by omega)
      omega
    · omega

theorem load_matches_percent_witness :
    scan_snippet.match_type = matchtype.snippet ∧ (env_snippet.compile_ranges digest_1234).1 = 40 ∧
      scan_snippet.total_lines = 80 ∧
      ((load_matches env_snippet scan_snippet digest_1234).2.getD []).length = 10 ∧
      ∀ m ∈ (load_matches env_snippet scan_snippet digest_1234).2.getD [],
        m.matched = [53, 48, 37] :=
  ⟨rfl, rfl, rfl, by decide,
    ((load_matches_percent env_snippet scan_snippet digest_1234
      ((load_matches env_snippet scan_snippet digest_1234).2.getD []) (by decide)).2
        rfl (by decide) (by decide) (by decide)).2.2⟩

/-! ### Finalization -/

theorem load_matches_fetch_no_records (env : Env) (scan : scan_data) (md5 : Digest)
    (lines oss_lines : CStr) (pct : Int)
    (hf : env.recordset Table.oss_file md5 = [])
    (hc : scan.match_type ≠ matchtype.file → env.recordset Table.oss_component md5 = []) :
    load_matches.fetch env scan md5 lines oss_lines pct = none := by
  unfold load_matches.fetch
  dsimp only
  by_cases ht : scan.match_type = matchtype.file
  · simp [ht, ldb_fetch_recordset, hf, ldb_fetch_recordset.loop]
  · simp [ht, ldb_fetch_recordset, hf, hc ht, ldb_fetch_recordset.loop]

/-- C10, the claim as stated fails: the digest of the target is a key of FILES with one
record, whose component is not in COMPONENTS (an orphan); the record is rejected and no
record is stored (`count_matches` is 0), yet `compile_matches` returns the prefilled set, not
NULL, and leaves `match_type = file`, which is what `ldb_scan` hands to the serializer. -/
theorem compile_matches_orphan_counterexample :
    (ldb_scan.engine env_orphan scan_abcd).match_type = matchtype.file ∧
      (compile_matches env_orphan (ldb_scan.engine env_orphan scan_abcd)).2 ≠ none ∧
      count_matches env_orphan.scan_limit
        (compile_matches env_orphan (ldb_scan.engine env_orphan scan_abcd)).2 = 0 ∧
      (compile_matches env_orphan (ldb_scan.engine env_orphan scan_abcd)).1.match_type =
        matchtype.file ∧
      (ldb_scan env_orphan scan_abcd).matches_out ≠ none ∧
      (ldb_scan env_orphan scan_abcd).scan_out.match_type = matchtype.file := by
  decide

/-- C10, amended: for every scan with a match type other than `none`, if hydration fetches
no record (the FILES recordset of the matching digest is empty, and so is the COMPONENTS
recordset unless the match type is `file`), `compile_matches` returns NULL and sets the
match type to `none`. -/
theorem compile_matches_no_records (env : Env) (scan : scan_data)
    (hn : scan.match_type ≠ matchtype.none)
    (h : ∀ d, compile_matches.matching_md5 env scan = some d →
      env.recordset Table.oss_file d = [] ∧
        (scan.match_type ≠ matchtype.file → env.recordset Table.oss_component d = [])) :
    (compile_matches env scan).2 = none ∧
      (compile_matches env scan).1.match_type = matchtype.none := by
  unfold compile_matches
  cases hd : compile_matches.matching_md5 env scan with
  | none => exact ⟨rfl, rfl⟩
  | some d =>
    obtain ⟨hf, hc⟩ := h d hd
    have hl : (load_matches env scan d).2 = none := by
      unfold load_matches
      dsimp only
      split_ifs
      · rfl
      · exact load_matches_fetch_no_records env _ d _ _ _ hf hc
      · exact load_matches_fetch_no_records env _ d _ _ _ hf hc
    simp [hn, hl]

theorem compile_matches_no_records_witness :
    example_file_scan.match_type = matchtype.file ∧
      (compile_matches example_env example_file_scan).2 = none ∧
      (compile_matches example_env example_file_scan).1.match_type = matchtype.none :=
  ⟨rfl, compile_matches_no_records example_env example_file_scan (by decide)
    (fun d _ => ⟨rfl, fun _ => rfl⟩)⟩

/-! ### Early skip -/

/-- The engine leaves a skipped target with match type `none` and adds no event. -/
theorem engine_skip (env : Env) (scan : scan_data)
    (h : ldb_scan.file_size env scan ≤ 1 ∨
      ((env.extension scan.file_path).isSome = true ∧
        env.blacklisted_extension scan.file_path = true)) :
    (ldb_scan.engine env scan).match_type = matchtype.none ∧
      (ldb_scan.engine env scan).events = scan.events := by
  unfold ldb_scan.engine
  simp only [ldb_scan.skip, ldb_scan.file_size] at h ⊢
  rcases h with h | ⟨ha, hb⟩ <;> by_cases hp : scan.preload = true <;> simp_all

/-- C11: for every target whose size, as `ldb_scan` reads it, is at most 1 byte, or whose
path has a blacklisted extension, `ldb_scan` calls neither `ldb_scan_file` nor
`ldb_scan_snippets` (it adds no event to the scan) and hands the serializer no match set and
the match type `none`, whatever the index holds. -/
theorem ldb_scan_early_skip (env : Env) (scan : scan_data)
    (h : ldb_scan.file_size env scan ≤ 1 ∨
      ((env.extension scan.file_path).isSome = true ∧
        env.blacklisted_extension scan.file_path = true)) :
    (ldb_scan env scan).matches_out = none ∧
      (ldb_scan env scan).scan_out.match_type = matchtype.none ∧
      (ldb_scan env scan).scan_out.events = scan.events := by
  obtain ⟨hm, he⟩ := engine_skip env scan h
  have hc : compile_matches env (ldb_scan.engine env scan) =
      ({ ldb_scan.engine env scan with match_type := matchtype.none }, none) := by
    unfold compile_matches compile_matches.matching_md5
    simp [hm]
  unfold ldb_scan
  simp [hc, count_matches, ldb_scan.asset_matched, he]

theorem ldb_scan_early_skip_witness :
    ldb_scan.file_size env_full_index scan_size1 = 1 ∧
      env_full_index.ldb_key_exists Table.oss_component scan_size1.md5 = true ∧
      (ldb_scan env_full_index scan_size1).matches_out = none ∧
      (ldb_scan env_full_index scan_size1).scan_out.match_type = matchtype.none ∧
      (ldb_scan env_full_index scan_size1).scan_out.events = scan_size1.events :=
  ⟨by decide, by decide, ldb_scan_early_skip env_full_index scan_size1 (Or.inl (by decide))⟩

/-! ### Incomplete metadata -/

/-- C12: a record in which vendor, component, url, version or file is empty leaves every
slot of the match set as it is in `add_match`; and `fill_match` returns the record of
`match_init` whenever one of the five fields it computes comes out empty. -/
theorem incomplete_metadata_dropped (env : Env) :
    (∀ (L : Nat) (m : match_data) (t : Nat) (ms : List match_data) (c : Bool),
      (m.vendor = [] ∨ m.component = [] ∨ m.url = [] ∨ m.version = [] ∨ m.file = []) →
      add_match L m t ms c = ms) ∧
    (∀ (file_record : Option (List Nat)) (component_record : CStr),
      (env.flip_slashes (env.extract_csv component_record 1 env.sizeof_vendor) = [] ∨
        env.flip_slashes (env.extract_csv component_record 2 env.sizeof_component) = [] ∨
        env.flip_slashes (env.extract_csv component_record 4 env.sizeof_url) = [] ∨
        env.flip_slashes (env.extract_csv component_record 3 env.sizeof_version) = [] ∨
        env.flip_slashes
          (match file_record with
            | some fr => cstr_at fr MD5_LEN
            | none => str_all) = []) →
      fill_match env file_record component_record = match_init) := by
  constructor
  · intro L m t ms c h
    unfold add_match
    rw [if_pos h]
  · intro fr cr h
    unfold fill_match
    cases fr with
    | none => exact if_pos h
    | some fr => exact if_pos h

theorem incomplete_metadata_dropped_witness :
    record_no_vendor.vendor = [] ∧ record_no_vendor.component ≠ [] ∧
      add_match 10 record_no_vendor 0 example_prefill true = example_prefill ∧
      fill_match example_env none [44, 108, 105, 98, 44, 49, 44, 117] = match_init :=
  ⟨rfl, by decide,
    (incomplete_metadata_dropped example_env).1 10 record_no_vendor 0 example_prefill true
      (Or.inl rfl),
    (incomplete_metadata_dropped example_env).2 none [44, 108, 105, 98, 44, 49, 44, 117]
      (Or.inl (by decide))⟩

/-! ### The divisor of `load_matches` -/

theorem ldb_scan_file_ne_snippet (env : Env) (fid : Digest) :
    ldb_scan_file env fid ≠ matchtype.snippet := by
  unfold ldb_scan_file
  split_ifs <;> decide

/-- The engine ends in `snippet` only with a number of lines other than 0, and adds no
division to the events. -/
theorem engine_snippet (env : Env) (scan : scan_data) :
    ((ldb_scan.engine env scan).match_type = matchtype.snippet →
        (ldb_scan.engine env scan).total_lines ≠ 0) ∧
      ∃ new, (ldb_scan.engine env scan).events = scan.events ++ new ∧
        ∀ d, Event.division d ∉ new := by
  unfold ldb_scan.engine
  cases hp : scan.preload <;>
    simp only [hp, Bool.false_eq_true, not_false_eq_true, not_true_eq_false, if_true, if_false] <;>
    split_ifs with h2 h3 h4 <;> refine ⟨?_, ?_⟩
  all_goals first
    | (refine ⟨[], ?_, ?_⟩ <;> simp; done)
    | (simp only [load_snippets_events, List.append_assoc]
       refine ⟨_, rfl, ?_⟩
       simp)
    | (intro _; simpa using h4)
    | (intro hs; exfalso
       first
         | exact ldb_scan_file_ne_snippet env _ hs
         | cases hs
         | (rw [load_snippets_match_type] at hs
            exact ldb_scan_file_ne_snippet env _ hs))

theorem load_matches_events (env : Env) (scan : scan_data) (md5 : Digest) :
    (load_matches env scan md5).1.events =
      scan.events ++ (if scan.match_type = matchtype.snippet then
        [Event.division scan.total_lines] else []) := by
  unfold load_matches
  dsimp only
  split_ifs <;> simp

theorem compile_matches_events (env : Env) (scan : scan_data) :
    (compile_matches env scan).1.events = scan.events ∨
      (scan.match_type = matchtype.snippet ∧
        (compile_matches env scan).1.events =
          scan.events ++ [Event.division scan.total_lines]) := by
  unfold compile_matches
  split
  · left; rfl
  · rename_i d hd
    have key : (if scan.match_type ≠ matchtype.none then load_matches env scan d
        else (scan, none)).1.events = scan.events ∨
        (scan.match_type = matchtype.snippet ∧
          (if scan.match_type ≠ matchtype.none then load_matches env scan d
            else (scan, none)).1.events = scan.events ++ [Event.division scan.total_lines]) := by
      split_ifs with hn
      · rw [load_matches_events]
        by_cases hs : scan.match_type = matchtype.snippet
        · right; simp [hs]
        · left; simp [hs]
      · left; rfl
    dsimp only
    split <;> exact key

theorem ldb_scan_events (env : Env) (scan : scan_data) :
    ∃ tail, (ldb_scan env scan).scan_out.events =
        (compile_matches env (ldb_scan.engine env scan)).1.events ++ tail ∧
      ∀ d, Event.division d ∉ tail := by
  unfold ldb_scan
  dsimp only
  split_ifs
  all_goals first
    | (refine ⟨[], ?_, ?_⟩ <;> simp; done)
    | (refine ⟨[Event.post_scan], ?_, ?_⟩ <;> simp)

/-- C20: in every run of `ldb_scan`, the events that the run adds hold no division by 0: the
division of `load_matches` is evaluated only with `total_lines ≠ 0`. -/
theorem ldb_scan_division_guard (env : Env) (scan : scan_data) :
    ∃ new, (ldb_scan env scan).scan_out.events = scan.events ++ new ∧
      Event.division 0 ∉ new := by
  obtain ⟨hsn, e1, he1, hd1⟩ := engine_snippet env scan
  obtain ⟨tail, ht, hd2⟩ := ldb_scan_events env scan
  rcases compile_matches_events env (ldb_scan.engine env scan) with hc | ⟨hs, hc⟩
  · refine ⟨e1 ++ tail, ?_, ?_⟩
    · rw [ht, hc, he1, List.append_assoc]
    · simp [hd1 0, hd2 0]
  · have hne := hsn hs
    refine ⟨e1 ++ [Event.division (ldb_scan.engine env scan).total_lines] ++ tail, ?_, ?_⟩
    · rw [ht, hc, he1]; simp
    · simp only [List.mem_append, List.mem_singleton, Event.division.injEq, not_or]
      exact ⟨⟨hd1 0, fun h => hne h.symm⟩, hd2 0⟩

/-! ### The slotting rule -/

theorem place_no_same (m : match_data) (n : Nat) (ms : List match_data)
    (h : ∀ x ∈ ms.take n, ¬ same_component x m) :
    add_match.place m n ms = (false, ms) := by
  induction ms generalizing n with
  | nil => cases n <;> rfl
  | cons x ms ih =>
    cases n with
    | zero => rfl
    | succ n =>
      have hx : ¬ same_component x m := h x (by simp)
      have hx' : ¬ (strcmp x.vendor m.vendor = 0 ∧ strcmp x.component m.component = 0) := by
        simpa [same_component, strcmp_eq_zero_iff] using hx
      have := ih n (fun y hy => h y (by simp [hy]))
      simp [add_match.place, hx', this]

theorem add_new_at (m : match_data) (L : Nat) (pre : List match_data) (x : match_data)
    (post : List match_data) (hL : pre.length < L)
    (hpre : ∀ y ∈ pre, ¬ add_match.takes m y) (hx : add_match.takes m x) :
    add_match.add_new m L (pre ++ x :: post) = pre ++ add_match.store m x :: post := by
  induction pre generalizing L with
  | nil =>
    cases L with
    | zero => simp at hL
    | succ L =>
      unfold add_match.takes at hx
      simp [add_match.add_new, hx]
  | cons y pre ih =>
    cases L with
    | zero => simp at hL
    | succ L =>
      have hy : ¬ (y.path_ln > m.path_ln ∨ y.path_ln = 0) := hpre y (by simp)
      have := ih L (by simp at hL; omega) (fun z hz => hpre z (by simp [hz]))
      simp only [List.cons_append, add_match.add_new, hy, if_false]
      exact congrArg (List.cons y) this

theorem add_new_none (m : match_data) (L : Nat) (ms : List match_data)
    (h : ∀ y ∈ ms.take L, ¬ add_match.takes m y) : add_match.add_new m L ms = ms := by
  induction ms generalizing L with
  | nil => cases L <;> rfl
  | cons y ms ih =>
    cases L with
    | zero => rfl
    | succ L =>
      have hy : ¬ (y.path_ln > m.path_ln ∨ y.path_ln = 0) := h y (by simp)
      have := ih L (fun z hz => h z (by simp [hz]))
      simp only [add_match.add_new, hy, if_false, this]

/-- C17: when `add_match` receives a complete record `m` whose vendor and component are not
those of a stored record, it writes the fields of `m` (the copies of `add_match.store`) into
the first slot below `scan_limit` whose `path_ln` is greater than that of `m` or is 0, and
leaves every other slot as it is; when there is no such slot it writes nothing. -/
theorem add_match_slotting (L : Nat) (m : match_data) (t : Nat) (ms : List match_data)
    (c : Bool) (hm : m.complete)
    (hnew : ∀ x ∈ ms.take (count_matches L (some ms)), ¬ same_component x m) :
    (∀ (pre : List match_data) (x : match_data) (post : List match_data),
      ms = pre ++ x :: post → pre.length < L →
      (∀ y ∈ pre, ¬ (y.path_ln > m.path_ln ∨ y.path_ln = 0)) →
      (x.path_ln > m.path_ln ∨ x.path_ln = 0) →
      add_match L m t ms c = pre ++ add_match.store m x :: post) ∧
    ((∀ y ∈ ms.take L, ¬ (y.path_ln > m.path_ln ∨ y.path_ln = 0)) →
      add_match L m t ms c = ms) := by
  have hp : add_match.place m (count_matches.loop L ms) ms = (false, ms) :=
    place_no_same m _ ms hnew
  have he : add_match L m t ms c = add_match.add_new m L ms := by
    rw [add_match_complete _ _ _ _ _ hm, hp]
    simp
  constructor
  · intro pre x post hms hL hpre hx
    rw [he, hms]
    exact add_new_at m L pre x post hL hpre hx
  · intro h
    rw [he]
    exact add_new_none m L ms h

theorem add_match_slotting_witness :
    set_10_30.map (fun x => x.path_ln) = [10, 30, 0, 0, 0, 0, 0, 0, 0, 0] ∧
      record_path20.complete ∧ record_path20.path_ln = 20 ∧
      (add_match 10 record_path20 2 set_10_30 false).map (fun x => (x.component, x.path_ln)) =
        [([108, 105, 98], 10), ([116, 104, 105, 114, 100], 20), ([], 0), ([], 0), ([], 0),
          ([], 0), ([], 0), ([], 0), ([], 0), ([], 0)] := by
  refine ⟨by decide, by decide, by decide, ?_⟩
  rw [(add_match_slotting 10 record_path20 2 set_10_30 false (by decide) (by decide)).1
    (set_10_30.take 1) (set_10_30.getD 1 match_init) (set_10_30.drop 2)
    (by decide) (by decide) (by decide) (by decide)]
  decide

/-! ### The order of a match set -/

theorem place_slot_path_ln (m x : match_data) :
    (add_match.place_slot m x).path_ln = x.path_ln := by
  unfold add_match.place_slot; split_ifs <;> simp [widen_path_ln]

theorem add_new_sorted (m : match_data) (hm : m.component ≠ []) (hp : 0 < m.path_ln)
    (k : Nat) (occ vac : List match_data)
    (ho : ∀ x ∈ occ, x.component ≠ [] ∧ 0 < x.path_ln)
    (hv : ∀ x ∈ vac, x.component = [] ∧ x.path_ln = 0)
    (hpw : occ.Pairwise (fun a b => a.path_ln ≤ b.path_ln))
    (hk : occ.length + vac.length ≤ k) :
    ∃ occ2 vac2 : List match_data, add_match.add_new m k (occ ++ vac) = occ2 ++ vac2 ∧
      occ2.length + vac2.length = occ.length + vac.length ∧
      (∀ x ∈ occ2, x.component ≠ [] ∧ 0 < x.path_ln) ∧
      (∀ x ∈ vac2, x.component = [] ∧ x.path_ln = 0) ∧
      occ2.Pairwise (fun a b => a.path_ln ≤ b.path_ln) ∧
      (∀ y ∈ occ2, y ∈ occ ∨ y.path_ln = m.path_ln) := by
  induction occ generalizing k with
  | nil =>
    cases vac with
    | nil =>
      refine ⟨[], [], ?_, rfl, by simp, by simp, List.Pairwise.nil, by simp⟩
      cases k <;> simp [add_match.add_new]
    | cons v vac =>
      cases k with
      | zero => simp at hk
      | succ k =>
        have hvp : v.path_ln = 0 := (hv v (List.mem_cons_self _ _)).2
        refine ⟨[add_match.store m v], vac, ?_, by simp; omega, ?_, ?_, by simp, ?_⟩
        · simp [add_match.add_new, hvp]
        · intro x hx
          simp only [List.mem_singleton] at hx
          subst hx
          exact ⟨hm, hp⟩
        · intro x hx
          exact hv x (List.mem_cons_of_mem _ hx)
        · intro y hy
          simp only [List.mem_singleton] at hy
          subst hy
          exact Or.inr rfl
  | cons x occ ih =>
    cases k with
    | zero => simp at hk
    | succ k =>
      have hpw' := List.pairwise_cons.1 hpw
      have hx0 : 0 < x.path_ln := (ho x (List.mem_cons_self _ _)).2
      by_cases hc : x.path_ln > m.path_ln ∨ x.path_ln = 0
      · have hlt : m.path_ln < x.path_ln := by omega
        refine ⟨add_match.store m x :: occ, vac, ?_, by simp, ?_, hv, ?_, ?_⟩
        · simp [add_match.add_new, hc]
        · intro y hy
          rcases List.mem_cons.1 hy with rfl | hy
          · exact ⟨hm, hp⟩
          · exact ho y (List.mem_cons_of_mem _ hy)
        · refine List.pairwise_cons.2 ⟨?_, hpw'.2⟩
          intro y hy
          have := hpw'.1 y hy
          show m.path_ln ≤ y.path_ln
          omega
        · intro y hy
          rcases List.mem_cons.1 hy with rfl | hy
          · exact Or.inr rfl
          · exact Or.inl (List.mem_cons_of_mem _ hy)
      · obtain ⟨occ2, vac2, he, hl, ho2, hv2, hp2, hmem⟩ :=
          ih k (fun y hy => ho y (List.mem_cons_of_mem _ hy)) hpw'.2
            (by simp only [List.length_cons] at hk; omega)
        refine ⟨x :: occ2, vac2, ?_, by simp only [List.length_cons]; omega, ?_, hv2, ?_, ?_⟩
        · simp [add_match.add_new, hc, he]
        · intro y hy
          rcases List.mem_cons.1 hy with rfl | hy
          · exact ho _ (List.mem_cons_self _ _)
          · exact ho2 y hy
        · refine List.pairwise_cons.2 ⟨?_, hp2⟩
          intro y hy
          rcases hmem y hy with hin | hsm
          · exact hpw'.1 y hin
          · omega
        · intro y hy
          rcases List.mem_cons.1 hy with rfl | hy
          · exact Or.inl (List.mem_cons_self _ _)
          · rcases hmem y hy with hin | hsm
            · exact Or.inl (List.mem_cons_of_mem _ hin)
            · exact Or.inr hsm

theorem match_set_sorted_add_match (L : Nat) (m : match_data) (t : Nat)
    (ms : List match_data) (c : Bool) (hpos : m.complete → 0 < m.path_ln)
    (h : match_set_sorted L ms) : match_set_sorted L (add_match L m t ms c) := by
  by_cases hm : m.complete
  · obtain ⟨occ, vac, rfl, hlen, ho, hv, hpw⟩ := h
    rw [add_match_complete _ _ _ _ _ hm,
      count_loop_occ_vac L occ vac (fun x hx => (ho x hx).1) hv (by omega)]
    obtain ⟨hp2, -⟩ := place_occ_vac m occ vac
    have ho' : ∀ x ∈ occ.map (add_match.place_slot m), x.component ≠ [] ∧ 0 < x.path_ln := by
      intro x hx
      obtain ⟨y, hy, rfl⟩ := List.mem_map.1 hx
      rw [place_slot_component, place_slot_path_ln]
      exact ho y hy
    have hpw' : (occ.map (add_match.place_slot m)).Pairwise
        (fun a b => a.path_ln ≤ b.path_ln) := by
      refine List.Pairwise.map _ ?_ hpw
      intro a b hab
      simpa only [place_slot_path_ln] using hab
    rw [hp2]
    split_ifs with hplaced
    · exact ⟨_, vac, rfl, by simpa using hlen, ho', hv, hpw'⟩
    · obtain ⟨occ2, vac2, he, hl, ho2, hv2, hp2', -⟩ :=
        add_new_sorted m hm.2.1 (hpos hm) L _ vac ho' hv hpw' (by simp; omega)
      exact ⟨occ2, vac2, he, by simp at hl; omega, ho2, hv2, hp2'⟩
  · rw [add_match_incomplete _ _ _ _ _ hm]
    exact h

theorem match_set_sorted_add_matches (L : Nat) (calls : List (match_data × Nat × Bool))
    (hpos : ∀ c ∈ calls, c.1.complete → 0 < c.1.path_ln)
    (ms : List match_data) (h : match_set_sorted L ms) :
    match_set_sorted L (add_matches L ms calls) := by
  induction calls generalizing ms with
  | nil => exact h
  | cons c calls ih =>
    exact ih (fun d hd => hpos d (List.mem_cons_of_mem _ hd)) _
      (match_set_sorted_add_match L c.1 c.2.1 ms c.2.2 (hpos c (List.mem_cons_self _ _)) h)

/-- C18: starting from an empty prefilled set, after every sequence of calls of `add_match`
whose complete records all have `path_ln > 0`, the records with a component occupy the slots
`0 .. count - 1`, with `count = count_matches ≤ scan_limit`, the slots from `count` on have
none, and the `path_ln` of the occupied slots are non-decreasing in slot order. -/
theorem add_matches_sorted (env : Env) (scan : scan_data) (lines oss_lines : CStr)
    (pct : Int) (calls : List (match_data × Nat × Bool))
    (hpos : ∀ c ∈ calls, c.1.complete → 0 < c.1.path_ln)
    (ms : List match_data)
    (hms : ms = add_matches env.scan_limit (prefill_match env scan lines oss_lines pct) calls)
    (n : Nat) (hn : n = count_matches env.scan_limit (some ms)) :
    n ≤ env.scan_limit ∧ ms.length = env.scan_limit ∧
      (∀ x ∈ ms.take n, x.component ≠ []) ∧ (∀ x ∈ ms.drop n, x.component = []) ∧
      (ms.take n).Pairwise (fun a b => a.path_ln ≤ b.path_ln) := by
  have hinv : match_set_sorted env.scan_limit ms := by
    rw [hms]
    refine match_set_sorted_add_matches _ calls hpos _ ?_
    obtain ⟨z, hzc, hzp, -, hpre⟩ := prefill_match_eq env scan lines oss_lines pct
    refine ⟨[], List.replicate env.scan_limit z, by simp [hpre], by simp, by simp, ?_,
      List.Pairwise.nil⟩
    intro x hx
    rw [List.eq_of_mem_replicate hx]
    exact ⟨hzc, hzp⟩
  obtain ⟨occ, vac, rfl, hlen, ho, hv, hpw⟩ := hinv
  have hc : n = occ.length := by
    rw [hn]
    exact count_loop_occ_vac _ occ vac (fun x hx => (ho x hx).1) hv (by omega)
  subst hc
  refine ⟨by omega, by simp [hlen], ?_, ?_, ?_⟩
  · simpa using fun x hx => (ho x hx).1
  · simpa using fun x hx => (hv x hx).1
  · simpa using hpw

theorem add_matches_sorted_witness :
    (add_matches 10 example_prefill calls_30_10_20).map (fun x => x.path_ln) =
        [10, 20, 0, 0, 0, 0, 0, 0, 0, 0] ∧
      count_matches 10 (some (add_matches 10 example_prefill calls_30_10_20)) = 2 ∧
      ((add_matches 10 example_prefill calls_30_10_20).take 2).Pairwise
        (fun a b => a.path_ln ≤ b.path_ln) :=
  ⟨by decide, by decide,
    (add_matches_sorted example_env example_file_scan str_all str_all 100 calls_30_10_20
      (by decide) _ rfl 2 (by decide)).2.2.2.2⟩

/-! ### Hydration from COMPONENTS -/

theorem count_loop_le (k : Nat) (ms : List match_data) : count_matches.loop k ms ≤ k := by
  induction ms generalizing k with
  | nil => cases k <;> simp [count_matches.loop]
  | cons x ms ih =>
    cases k with
    | zero => simp [count_matches.loop]
    | succ k =>
      simp only [count_matches.loop]
      split_ifs
      · have := ih k; omega
      · omega

theorem fill_match_none_path_ln (env : Env) (cr : CStr) :
    (fill_match env none cr).path_ln = 0 := by
  unfold fill_match
  dsimp only
  split_ifs <;> rfl

theorem built_path_ln (env : Env) (key subkey : List Nat) (n : Nat) (raw : List Nat)
    (dl : Nat) : (handle_component_record.built env key subkey n raw dl).path_ln = 0 := by
  unfold handle_component_record.built
  exact fill_match_none_path_ln env _

/-- One COMPONENTS record on a set of at least two slots whose slot 0 has `path_ln = 0` and
whose other slots are vacant: the handler continues and slot 0 makes one step. -/
theorem handle_component_record_step (env : Env) (key subkey raw : List Nat) (it k : Nat)
    (s z : match_data) (hL : env.scan_limit = k + 2) (hs : s.path_ln = 0)
    (hz : z.component = []) :
    handle_component_record env key subkey subkey.length raw raw.length it
        (s :: List.replicate (k + 1) z) =
      (false, component_slot_step env key s (subkey, raw) :: List.replicate (k + 1) z) := by
  have hcount : count_matches.loop (k + 2) (s :: List.replicate (k + 1) z) =
      if s.component ≠ [] then 1 else 0 := by
    by_cases hc : s.component = []
    · simp [count_matches.loop, hc]
    · show (if s.component ≠ [] then
          count_matches.loop (k + 1) (List.replicate (k + 1) z) + 1 else 0) = _
      rw [count_loop_replicate _ _ _ hz]
  have hb : handle_component_record env key subkey subkey.length raw raw.length it
        (s :: List.replicate (k + 1) z) =
      if raw.length = 0 ∧ raw.length ≥ env.MAX_PATH then (false, s :: List.replicate (k + 1) z)
      else (false, add_match (k + 2)
        (handle_component_record.built env key subkey subkey.length raw raw.length)
        (count_matches (k + 2) (some (s :: List.replicate (k + 1) z)))
        (s :: List.replicate (k + 1) z) true) := by
    unfold handle_component_record handle_component_record.built
    simp only [hL, count_matches, hcount]
    split_ifs <;> first | rfl | omega
  rw [hb]
  unfold component_slot_step
  dsimp only
  by_cases hg : raw.length = 0 ∧ raw.length ≥ env.MAX_PATH
  · rw [if_pos hg, if_pos hg]
  · rw [if_neg hg, if_neg hg]
    by_cases hm : (handle_component_record.built env key subkey subkey.length raw
        raw.length).complete
    · rw [if_neg (not_not.2 hm)]
      by_cases hsame : s.component ≠ [] ∧ same_component s
          (handle_component_record.built env key subkey subkey.length raw raw.length)
      · rw [if_pos hsame, add_match_second (k + 1) _ s z _ _ hm hsame.1 hz hsame.2]
      · rw [if_neg hsame, add_match_complete _ _ _ _ _ hm, hcount]
        have hp : add_match.place
            (handle_component_record.built env key subkey subkey.length raw raw.length)
            (if s.component ≠ [] then 1 else 0) (s :: List.replicate (k + 1) z) =
            (false, s :: List.replicate (k + 1) z) := by
          apply place_no_same
          intro x hx
          by_cases hc : s.component = []
          · simp [hc] at hx
          · simp only [ne_eq, hc, not_false_eq_true, if_true, List.take_succ_cons,
              List.take_zero, List.mem_singleton] at hx
            subst hx
            exact fun h => hsame ⟨hc, h⟩
        rw [hp]
        simp [add_match.add_new, hs]
    · rw [if_pos hm, add_match_incomplete _ _ _ _ _ hm]

theorem component_slot_step_path_ln (env : Env) (key : Digest) (s : match_data)
    (r : List Nat × List Nat) (hs : s.path_ln = 0) :
    (component_slot_step env key s r).path_ln = 0 := by
  unfold component_slot_step
  split_ifs
  · exact hs
  · rw [widen_path_ln]; exact hs
  · exact built_path_ln env key r.1 r.1.length r.2 r.2.length
  · exact hs

theorem component_fetch_loop (env : Env) (key : Digest) (recs : List (List Nat × List Nat))
    (it k : Nat) (s z : match_data) (hL : env.scan_limit = k + 2) (hs : s.path_ln = 0)
    (hz : z.component = []) :
    ldb_fetch_recordset.loop (handle_component_record env) key recs it
        (s :: List.replicate (k + 1) z) =
      (it + recs.length,
        recs.foldl (component_slot_step env key) s :: List.replicate (k + 1) z) := by
  induction recs generalizing it s with
  | nil => rfl
  | cons r recs ih =>
    obtain ⟨subkey, raw⟩ := r
    simp only [ldb_fetch_recordset.loop,
      handle_component_record_step env key subkey raw it k s z hL hs hz, Bool.false_eq_true,
      if_false, List.foldl_cons, List.length_cons]
    rw [ih (it + 1) _ (component_slot_step_path_ln env key s _ hs)]
    congr 1
    omega

/-- C19, the claim as stated fails: with `scan_limit = 1` the handler stops at a full set
(`total_matches >= scan_limit`), so of the two complete COMPONENTS records `acme,lib,1,u`
and `acme,other,1,u` the first stays in slot 0 and the second, which brings another
component, never overwrites it. -/
theorem component_hydration_counterexample :
    env_limit1.scan_limit = 1 ∧
      (records_lib_other.map (fun r =>
        (handle_component_record.built env_limit1 digest_abcd r.1 r.1.length r.2
          r.2.length).component)) = [[108, 105, 98], [111, 116, 104, 101, 114]] ∧
      (∀ r ∈ records_lib_other,
        (handle_component_record.built env_limit1 digest_abcd r.1 r.1.length r.2
          r.2.length).complete) ∧
      (ldb_fetch_recordset.loop (handle_component_record env_limit1) digest_abcd
        records_lib_other 0
        (prefill_match env_limit1 example_component_scan str_all str_all 100)).1 = 2 ∧
      (ldb_fetch_recordset.loop (handle_component_record env_limit1) digest_abcd
        records_lib_other 0
        (prefill_match env_limit1 example_component_scan str_all str_all 100)).2.map
          (fun x => x.component) = [[108, 105, 98]] := by
  decide

/-- C19, amended: a match set filled only through `handle_component_record` never holds more
than one record (`count_matches ≤ 1`, for every `scan_limit`); and with `scan_limit ≥ 2`
every record is handled, none stops the iteration, and slot 0 ends as the fold of
`component_slot_step` over the records: each complete record of another vendor and
component than the stored one overwrites slot 0, so that the stored record is the last such
record, its version range widened by the later records of its component. -/
theorem component_hydration (env : Env) (scan : scan_data) (lines oss_lines : CStr)
    (pct : Int) (key : Digest) (recs : List (List Nat × List Nat)) (it : Nat) :
    count_matches env.scan_limit
        (some (ldb_fetch_recordset.loop (handle_component_record env) key recs it
          (prefill_match env scan lines oss_lines pct)).2) ≤ 1 ∧
      (2 ≤ env.scan_limit →
        ∃ z : match_data, z.component = [] ∧
          prefill_match env scan lines oss_lines pct = List.replicate env.scan_limit z ∧
          ldb_fetch_recordset.loop (handle_component_record env) key recs it
              (prefill_match env scan lines oss_lines pct) =
            (it + recs.length,
              recs.foldl (component_slot_step env key) z ::
                List.replicate (env.scan_limit - 1) z)) := by
  obtain ⟨z, hzc, hzp, -, hpre⟩ := prefill_match_eq env scan lines oss_lines pct
  by_cases hL : 2 ≤ env.scan_limit
  · obtain ⟨k, hk⟩ : ∃ k, env.scan_limit = k + 2 := ⟨env.scan_limit - 2, by omega⟩
    have key' := component_fetch_loop env key recs it k z z hk hzp hzc
    have hrep : List.replicate env.scan_limit z = z :: List.replicate (k + 1) z := by
      rw [hk]; rfl
    have hsub : env.scan_limit - 1 = k + 1 := by omega
    refine ⟨?_, fun _ => ⟨z, hzc, hpre, ?_⟩⟩
    · rw [hpre, hrep, key', hk]
      show (if (recs.foldl (component_slot_step env key) z).component ≠ [] then
          count_matches.loop (k + 1) (List.replicate (k + 1) z) + 1 else 0) ≤ 1
      rw [count_loop_replicate _ _ _ hzc]
      split_ifs <;> omega
    · rw [hpre, hrep, key', hsub]
  · refine ⟨?_, fun h => absurd h hL⟩
    have := count_loop_le env.scan_limit
      (ldb_fetch_recordset.loop (handle_component_record env) key recs it
        (prefill_match env scan lines oss_lines pct)).2
    simp only [count_matches]
    omega

theorem component_hydration_witness :
    2 ≤ example_env.scan_limit ∧
      (ldb_fetch_recordset.loop (handle_component_record example_env) digest_abcd
        records_lib_other 0
        (prefill_match example_env example_component_scan str_all str_all 100)).1 = 2 ∧
      ((ldb_fetch_recordset.loop (handle_component_record example_env) digest_abcd
        records_lib_other 0
        (prefill_match example_env example_component_scan str_all str_all 100)).2.map
          (fun x => x.component)).take 2 = [[111, 116, 104, 101, 114], []] := by
  obtain ⟨z, -, hz, h⟩ := (component_hydration example_env example_component_scan str_all
    str_all 100 digest_abcd records_lib_other 0).2 (by decide)
  refine ⟨by decide, ?_, ?_⟩
  · rw [h]; rfl
  · have hz' : z = (prefill_match example_env example_component_scan str_all str_all
        100).headD match_init := by
      rw [hz]; rfl
    rw [h, hz']
    decide

/-! ### The record size guard -/

/-- The guard of `handle_file_record` skips a record of length 0 or of `MAX_PATH` or more. -/
theorem handle_file_record_guard (env : Env) (key subkey : List Nat) (n : Nat)
    (raw : List Nat) (dl it : Nat) (ms : List match_data)
    (h : dl = 0 ∨ dl ≥ env.MAX_PATH) :
    handle_file_record env key subkey n raw dl it ms = (false, ms) := by
  unfold handle_file_record
  rw [if_pos h]

/-- The guard of `handle_component_record` is never taken when `MAX_PATH` is not 0. -/
theorem handle_component_record_guard (env : Env) (dl : Nat) (h : 0 < env.MAX_PATH) :
    ¬ (dl = 0 ∧ dl ≥ env.MAX_PATH) := by
  omega

set_option maxRecDepth 100000 in
/-- C14, evaluated on the code: the guard `!datalen && datalen >= MAX_PATH` of
`handle_component_record` lets both kinds of record through. A COMPONENTS record of 1112
bytes (`MAX_PATH = 1024`) is copied and stored in the set, where `handle_file_record` skips
a record of that length; and a record of length 0 that meets a full set makes the handler
return true, which stops the iteration. -/
theorem handle_component_record_guard_fails :
    example_env.MAX_PATH = 1024 ∧ raw_oversize.length = 1112 ∧
      ((handle_component_record example_env digest_abcd (digest_abcd.drop 4) 12 raw_oversize
        1112 0 example_prefill).2.map (fun x => x.component)).take 1 = [[108, 105, 98]] ∧
      handle_file_record example_env digest_abcd (digest_abcd.drop 4) 12 raw_oversize
        1112 0 example_prefill = (false, example_prefill) ∧
      count_matches env_limit1.scan_limit (some set_path20) = env_limit1.scan_limit ∧
      handle_component_record env_limit1 digest_abcd (digest_abcd.drop 4) 12 [] 0 1
        set_path20 = (true, set_path20) := by
  decide

/-! ### Matching against the SBOM string -/

/-- C16, evaluated on the code: the SBOM string `libfoo,` has the one token `libfoo`; the
component `foo` is not declared, yet `assets_match` answers true for it, because
`strstr` finds `foo,` inside `libfoo,`; the component match of the target is suppressed. -/
theorem assets_match_suffix_of_token :
    env_sbom_foo.sbom = some [108, 105, 98, 102, 111, 111, 44] ∧
      [108, 105, 98, 102, 111, 111, 44].splitOn 44 = [[108, 105, 98, 102, 111, 111], []] ∧
      [102, 111, 111] ∉ [108, 105, 98, 102, 111, 111, 44].splitOn 44 ∧
      assets_match env_sbom_foo { record_v1 with component := [102, 111, 111] } = true ∧
      (((compile_matches env_sbom_foo (ldb_scan.engine env_sbom_foo scan_abcd)).2.getD []).map
        (fun x => x.component)).take 1 = [[102, 111, 111]] ∧
      (compile_matches env_sbom_foo (ldb_scan.engine env_sbom_foo scan_abcd)).1.match_type =
        matchtype.component ∧
      (ldb_scan env_sbom_foo scan_abcd).matches_out = none ∧
      (ldb_scan env_sbom_foo scan_abcd).scan_out.match_type = matchtype.none := by
  decide

/-! ### The manifest loop -/

theorem wfp_line_read_data (env : Env) (w : WfpEnv) (st : wfp_state) (raw : CStr) :
    (wfp_scan.line env w st raw).read_data =
      (st.read_data || wfp_scan.is_file (w.trim raw)) := by
  unfold wfp_scan.line wfp_scan.call
  dsimp only
  cases hf : wfp_scan.is_file (w.trim raw) <;> cases hc : wfp_scan.is_component (w.trim raw) <;>
    cases hr : st.read_data <;> simp [hf, hc, hr] <;> (try split_ifs) <;> (try simp [hr])

theorem wfp_line_calls (env : Env) (w : WfpEnv) (st : wfp_state) (raw : CStr) :
    (wfp_scan.line env w st raw).calls =
      if (wfp_scan.is_component (w.trim raw) || wfp_scan.is_file (w.trim raw)) && st.read_data
      then st.calls ++ [st.scan] else st.calls := by
  unfold wfp_scan.line wfp_scan.call
  dsimp only
  cases hf : wfp_scan.is_file (w.trim raw) <;> cases hc : wfp_scan.is_component (w.trim raw) <;>
    cases hr : st.read_data <;> simp [hf, hc, hr] <;> (try split_ifs) <;> (try simp [hr])

/-- Count of the calls of `ldb_scan` over the lines of a manifest without `component=`
lines: with the call that is still due, one call for each `file=` line. -/
theorem wfp_fold_calls (env : Env) (w : WfpEnv) (lines : List CStr) (st : wfp_state)
    (hc : ∀ raw ∈ lines, wfp_scan.is_component (w.trim raw) = false) :
    (lines.foldl (wfp_scan.line env w) st).calls.length +
        (if (lines.foldl (wfp_scan.line env w) st).read_data then 1 else 0) =
      st.calls.length + (if st.read_data then 1 else 0) +
        (lines.filter (fun raw => wfp_scan.is_file (w.trim raw))).length := by
  induction lines generalizing st with
  | nil => simp
  | cons raw lines ih =>
    rw [List.foldl_cons, ih _ (fun r hr => hc r (List.mem_cons_of_mem _ hr)),
      wfp_line_calls, wfp_line_read_data, hc raw (List.mem_cons_self _ _)]
    cases hf : wfp_scan.is_file (w.trim raw) <;> cases hr : st.read_data <;>
      simp [List.filter_cons, hf] <;> omega

/-- What holds of C13: for a manifest without `component=` lines, `wfp_scan` calls
`ldb_scan` once for each `file=` line. -/
theorem wfp_scan_file_blocks_only (env : Env) (w : WfpEnv) (scan : scan_data)
    (lines : List CStr)
    (hc : ∀ raw ∈ lines, wfp_scan.is_component (w.trim raw) = false) :
    (wfp_scan env w scan (some lines)).2.calls.length =
      (lines.filter (fun raw => wfp_scan.is_file (w.trim raw))).length := by
  have h := wfp_fold_calls env w lines
    { scan := { scan with preload := true }, read_data := false, calls := [] } hc
  unfold wfp_scan
  dsimp only
  split_ifs with hr
  · simp only [wfp_scan.call, List.length_append, List.length_singleton]
    simp [hr] at h
    omega
  · simp [hr] at h
    omega

/-- C13, evaluated on the code: the manifest with a file block, a component line and a
second file block conforms to the grammar and has two `file=` blocks; `wfp_scan` calls
`ldb_scan` three times. The component line triggers the scan of the first block and leaves
`read_data` set, so the second `file=` line triggers a scan of the reset scan, with the
digest of the first block, no size, no path and no fingerprint. -/
theorem wfp_scan_scans_after_component :
    (manifest_file_component_file.filter wfp_scan.is_file).length = 2 ∧
      (manifest_file_component_file.filter wfp_scan.is_component).length = 1 ∧
      (wfp_scan example_env (example_wfp 65535) scan_init
        (some manifest_file_component_file)).2.calls.map
          (fun s => (s.md5.take 1, s.file_size, s.file_path, s.hash_count)) =
        [([170], [49, 48, 48], [97, 46, 99], 1), ([170], [], [], 0),
          ([187], [49, 48, 48], [98, 46, 99], 1)] := by
  decide

/-! ### The fingerprint cap -/

theorem fields_fp_list (n : Nat) :
    wfp_scan.fields (fp_list n) = List.replicate (n + 1) fp_hex := by
  induction n with
  | zero => rfl
  | succ n ih =>
    simp only [fp_list, fp_hex, List.cons_append, List.nil_append, wfp_scan.fields] at ih ⊢
    simp [ih, List.replicate_succ]

theorem fields_line_fp (n : Nat) :
    wfp_scan.fields (line_fp n) = [49] :: List.replicate (n + 1) fp_hex := by
  simp [line_fp, wfp_scan.fields, fields_fp_list]

theorem save_hashes_count (w : WfpEnv) (line_nr : Int) (n : Nat) (scan : scan_data) :
    (wfp_scan.save_hashes w line_nr (List.replicate n fp_hex) scan).hash_count =
      scan.hash_count + n := by
  induction n generalizing scan with
  | zero => rfl
  | succ n ih =>
    simp only [List.replicate_succ, wfp_scan.save_hashes]
    rw [if_neg (by decide), ih]
    simp only
    omega

/-- The check of the cap is made once for a line: a line of `n + 1` fingerprints that is
read below the cap adds `n + 1` to `hash_count`. -/
theorem wfp_line_fp (env : Env) (cap n : Nat) (st : wfp_state)
    (h : st.scan.hash_count < cap) :
    (wfp_scan.line env (example_wfp cap) st (line_fp n)).scan.hash_count =
        st.scan.hash_count + (n + 1) ∧
      (wfp_scan.line env (example_wfp cap) st (line_fp n)).read_data = st.read_data ∧
      (wfp_scan.line env (example_wfp cap) st (line_fp n)).calls = st.calls := by
  have hf : wfp_scan.is_file (line_fp n) = false := by
    simp [wfp_scan.is_file, line_fp]
  have hc : wfp_scan.is_component (line_fp n) = false := by
    simp [wfp_scan.is_component, line_fp]
  unfold wfp_scan.line
  simp only [example_wfp, hf, hc, Bool.or_self, Bool.false_and, Bool.false_eq_true, if_false,
    Bool.not_false, Bool.and_self, true_and, h, if_true, fields_line_fp, List.tail_cons,
    save_hashes_count, and_self, and_true]

/-- C15, evaluated on the code: whatever the cap `MAX_HASHES_READ = n + 1`, the block with
the one fingerprint line `1=aabbccdd,…` of `n + 2` fingerprints is handed to `ldb_scan` with
`hash_count = n + 2`, which is above the cap: the cap is tested once before the line is
read, not for each fingerprint. -/
theorem wfp_scan_exceeds_cap (n : Nat) :
    (example_wfp (n + 1)).MAX_HASHES_READ = n + 1 ∧
      (wfp_scan example_env (example_wfp (n + 1)) scan_init
        (some [line_file_a, line_fp (n + 1)])).2.calls.map (fun s => s.hash_count) = [n + 2] := by
  refine ⟨rfl, ?_⟩
  have h1 : (wfp_scan.line example_env (example_wfp (n + 1))
      { scan := { scan_init with preload := true }, read_data := false, calls := [] }
      line_file_a).scan.hash_count = 0 ∧
      (wfp_scan.line example_env (example_wfp (n + 1))
      { scan := { scan_init with preload := true }, read_data := false, calls := [] }
      line_file_a).read_data = true ∧
      (wfp_scan.line example_env (example_wfp (n + 1))
      { scan := { scan_init with preload := true }, read_data := false, calls := [] }
      line_file_a).calls = [] := ⟨rfl, rfl, rfl⟩
  obtain ⟨a, b, c⟩ := wfp_line_fp example_env (n + 1) (n + 1) _ (by rw [h1.1]; omega)
  unfold wfp_scan
  simp only [List.foldl_cons, List.foldl_nil, b, h1.2.1, if_true, wfp_scan.call, c, h1.2.2,
    List.nil_append, List.map_cons, List.map_nil, a, h1.1]
  simp

end Scan
